import Mathlib

/-!
Verification of the kube-oidc-gateway request-serving core.

The Go sources embedded here are the gateway package files: the handler file
(App, HandleOIDCDiscovery, HandleJWKS, handleCachedEndpoint, writeJSONResponse,
HandleHealthz, HandleReadyz, populateCache), the upstream client file
(MaxResponseSize, UpstreamClient.Fetch) and the cache file (CacheEntry, Cache,
NewCache, Cache.Get, Cache.Set).  Bodies of documents are modelled as sequences
of Unicode scalar values (Go handles them as UTF-8 bytes; UTF-8 is an
order-preserving bijection between scalar sequences and valid byte sequences).
Machine integers are modelled as Nat with explicit reduction modulo 2^32 where
Go uses uint32 arithmetic (the content hash).  Time instants are Nat; Go's
time.Time.After is strict comparison, modelled as strict greater-than.
-/

set_option maxRecDepth 2048

namespace Gateway

/-! ## JSON values

Go's json.Unmarshal into interface stores an object as map[string]interface,
and json.Marshal emits map keys in sorted (bytewise, hence code-point) order,
a later duplicate key overwriting an earlier one.  The model therefore keeps
object fields as a key-sorted duplicate-free list, built by sorted insertion
with replacement (canonObj below), which is exactly the observable behaviour
of the Go map plus sorted serialization.

Go stores a JSON number as float64 and re-serializes it via strconv's
shortest round-trip formatting.  The model keeps the numeral token exactly as
read.  On every output of the formatter the token is the one the formatter
itself produced, so the idempotence argument is the same in both models;
the model does not reproduce float64 rounding of extreme literals.
-/

mutual

inductive JValue where
  | null : JValue
  | bool (b : Bool) : JValue
  | num (tok : List Char) : JValue
  | str (s : List Char) : JValue
  | arr (elems : JArr) : JValue
  | obj (fields : JObj) : JValue

inductive JArr where
  | nil : JArr
  | cons (v : JValue) (rest : JArr) : JArr

inductive JObj where
  | nil : JObj
  | cons (key : List Char) (v : JValue) (rest : JObj) : JObj

end

/-- Bytewise (equivalently code-point) strict order on strings, the order Go
uses when sorting map keys for serialization. -/
def strLt : List Char → List Char → Bool
  | [], [] => false
  | [], _ :: _ => true
  | _ :: _, [] => false
  | a :: as, b :: bs =>
      if a.toNat < b.toNat then true
      else if b.toNat < a.toNat then false
      else strLt as bs

/-- Sorted insertion with replacement: the observable effect of one Go map
assignment, viewed through sorted serialization. -/
def insertField (k : List Char) (v : JValue) : JObj → JObj
  | .nil => .cons k v .nil
  | .cons k2 v2 o =>
      if strLt k k2 then .cons k v (.cons k2 v2 o)
      else if k = k2 then .cons k2 v o
      else .cons k2 v2 (insertField k v o)

def canonInto (acc : JObj) : JObj → JObj
  | .nil => acc
  | .cons k v o => canonInto (insertField k v acc) o

/-- The map built from the fields in source order: sorted keys, later
duplicates replacing earlier values (Go map semantics plus sorted marshal). -/
def canonObj (o : JObj) : JObj := canonInto JObj.nil o

/-! ## Lexing -/

def isWsChar (c : Char) : Bool := c == ' ' || c == '\t' || c == '\n' || c == '\r'

def isDigitChar (c : Char) : Bool := '0' ≤ c && c ≤ '9'

/-- Characters that can occur in a JSON numeral token. -/
def isNumChar (c : Char) : Bool :=
  isDigitChar c || c == '-' || c == '+' || c == '.' || c == 'e' || c == 'E'

def skipWs : List Char → List Char
  | c :: cs => if isWsChar c then skipWs cs else c :: cs
  | [] => []

/-- After the exponent sign: one or more digits, ending the token. -/
def numTail : List Char → Bool
  | [] => false
  | cs => cs.all isDigitChar

def numExpRest : List Char → Bool
  | '+' :: r => numTail r
  | '-' :: r => numTail r
  | r => numTail r

/-- Optional exponent part, then end of token. -/
def numExp : List Char → Bool
  | [] => true
  | 'e' :: r => numExpRest r
  | 'E' :: r => numExpRest r
  | _ => false

/-- Optional fraction part, then exponent part. -/
def numFrac : List Char → Bool
  | '.' :: r =>
      !(r.takeWhile isDigitChar).isEmpty && numExp (r.dropWhile isDigitChar)
  | r => numExp r

/-- Integer part (a single 0, or a nonzero digit then digits), then the rest. -/
def numBody : List Char → Bool
  | [] => false
  | '0' :: r => numFrac r
  | c :: r => isDigitChar c && numFrac ((c :: r).dropWhile isDigitChar)

/-- The RFC 8259 number grammar, which Go's scanner enforces. -/
def validNum : List Char → Bool
  | '-' :: r => numBody r
  | r => numBody r

/-- Number scan: maximal run of numeral characters, validated against the
grammar.  Equivalent to Go's number state machine: on any full parse the
token is followed by a delimiter, where the state machine stops too. -/
def parseNum (cs : List Char) : Option (JValue × List Char) :=
  if validNum (cs.takeWhile isNumChar) then
    some (JValue.num (cs.takeWhile isNumChar), cs.dropWhile isNumChar)
  else none

def hexDigitVal (c : Char) : Option Nat :=
  let n := c.toNat
  if 48 ≤ n && n ≤ 57 then some (n - 48)
  else if 97 ≤ n && n ≤ 102 then some (n - 87)
  else if 65 ≤ n && n ≤ 70 then some (n - 55)
  else none

def hex4 (a b c d : Char) : Option Nat :=
  match hexDigitVal a, hexDigitVal b, hexDigitVal c, hexDigitVal d with
  | some va, some vb, some vc, some vd => some (((va * 16 + vb) * 16 + vc) * 16 + vd)
  | _, _, _, _ => none

def isSurrogateCode (n : Nat) : Bool := 0xD800 ≤ n && n < 0xE000

def isHighSurrogate (n : Nat) : Bool := 0xD800 ≤ n && n < 0xDC00

def isLowSurrogate (n : Nat) : Bool := 0xDC00 ≤ n && n < 0xE000

def combineSurrogates (hi lo : Nat) : Nat :=
  0x10000 + (hi - 0xD800) * 0x400 + (lo - 0xDC00)

def replacementChar : Char := Char.ofNat 0xFFFD

def unescapeSimple : Char → Option Char
  | '"' => some '"'
  | '\\' => some '\\'
  | '/' => some '/'
  | 'b' => some (Char.ofNat 8)
  | 'f' => some (Char.ofNat 12)
  | 'n' => some '\n'
  | 'r' => some '\r'
  | 't' => some '\t'
  | _ => none

/-- String contents after the opening quote.  Mirrors Go: raw control
characters are a syntax error; escapes include hex escapes, with surrogate
pairs combined and unpaired surrogates replaced by U+FFFD.  Fuel-indexed for
structural recursion; every step consumes at least one input character, so
the callers' fuel of input length + 1 is never exhausted. -/
def parseStrAux (fuel : Nat) (acc : List Char) (cs : List Char) :
    Option (List Char × List Char) :=
  match fuel with
  | 0 => none
  | fuel + 1 =>
    match cs with
    | '"' :: rest => some (acc.reverse, rest)
    | '\\' :: 'u' :: a :: b :: c :: d :: rest =>
        match hex4 a b c d with
        | none => none
        | some n =>
          if isSurrogateCode n then
            if isHighSurrogate n then
              match rest with
              | '\\' :: 'u' :: a2 :: b2 :: c2 :: d2 :: rest2 =>
                  match hex4 a2 b2 c2 d2 with
                  | some n2 =>
                      if isLowSurrogate n2 then
                        parseStrAux fuel (Char.ofNat (combineSurrogates n n2) :: acc) rest2
                      else
                        parseStrAux fuel (replacementChar :: acc)
                          ('\\' :: 'u' :: a2 :: b2 :: c2 :: d2 :: rest2)
                  | none =>
                      parseStrAux fuel (replacementChar :: acc)
                        ('\\' :: 'u' :: a2 :: b2 :: c2 :: d2 :: rest2)
              | r => parseStrAux fuel (replacementChar :: acc) r
            else parseStrAux fuel (replacementChar :: acc) rest
          else parseStrAux fuel (Char.ofNat n :: acc) rest
    | '\\' :: e :: rest =>
        match unescapeSimple e with
        | some ch => parseStrAux fuel (ch :: acc) rest
        | none => none
    | c :: rest => if c.toNat < 32 then none else parseStrAux fuel (c :: acc) rest
    | [] => none

/-! ## The parser

Fuel-indexed; the entry point jsonUnmarshal supplies length + 1, which the
grammar never exhausts (every two fuel steps of nesting consume a bracket
that has a closing mate in any accepted input). -/

mutual

def parseVal (fuel : Nat) (cs : List Char) : Option (JValue × List Char) :=
  match fuel with
  | 0 => none
  | fuel + 1 =>
    match skipWs cs with
    | 'n' :: 'u' :: 'l' :: 'l' :: r => some (.null, r)
    | 't' :: 'r' :: 'u' :: 'e' :: r => some (.bool true, r)
    | 'f' :: 'a' :: 'l' :: 's' :: 'e' :: r => some (.bool false, r)
    | '"' :: r =>
        match parseStrAux (r.length + 1) [] r with
        | some (s, r2) => some (.str s, r2)
        | none => none
    | '[' :: r =>
        match skipWs r with
        | ']' :: r2 => some (.arr .nil, r2)
        | r2 =>
            match parseElems fuel r2 with
            | some (a, r3) => some (.arr a, r3)
            | none => none
    | '{' :: r =>
        match skipWs r with
        | '}' :: r2 => some (.obj .nil, r2)
        | r2 =>
            match parseFields fuel r2 with
            | some (o, r3) => some (.obj (canonObj o), r3)
            | none => none
    | c :: r => if c == '-' || isDigitChar c then parseNum (c :: r) else none
    | [] => none

def parseElems (fuel : Nat) (cs : List Char) : Option (JArr × List Char) :=
  match fuel with
  | 0 => none
  | fuel + 1 =>
    match parseVal fuel cs with
    | none => none
    | some (v, r) =>
      match skipWs r with
      | ',' :: r2 =>
          match parseElems fuel r2 with
          | some (a, r3) => some (.cons v a, r3)
          | none => none
      | ']' :: r2 => some (.cons v .nil, r2)
      | _ => none

def parseFields (fuel : Nat) (cs : List Char) : Option (JObj × List Char) :=
  match fuel with
  | 0 => none
  | fuel + 1 =>
    match skipWs cs with
    | '"' :: r =>
      match parseStrAux (r.length + 1) [] r with
      | none => none
      | some (key, r1) =>
        match skipWs r1 with
        | ':' :: r2 =>
          match parseVal fuel r2 with
          | none => none
          | some (v, r3) =>
            match skipWs r3 with
            | ',' :: r4 =>
                match parseFields fuel r4 with
                | some (o, r5) => some (.cons key v o, r5)
                | none => none
            | '}' :: r4 => some (.cons key v .nil, r4)
            | _ => none
        | _ => none
    | _ => none

end

/-- Go json.Unmarshal of a whole document into interface: one value, then
only whitespace may remain. -/
def jsonUnmarshal (cs : List Char) : Option JValue :=
  match parseVal (cs.length + 1) cs with
  | some (v, r) => if (skipWs r).isEmpty then some v else none
  | none => none

/-! ## The printer: Go json.MarshalIndent with prefix empty and indent two
spaces, including the encoder's default HTML escaping. -/

def indentAt (d : Nat) : List Char := List.replicate (2 * d) ' '

def hexDigitChar (n : Nat) : Char :=
  if n < 10 then Char.ofNat (48 + n) else Char.ofNat (87 + n)

/-- One character as Go's encoder emits it inside a string: standard short
escapes, hex escapes for remaining control characters, and the default HTML
escaping of angle brackets, ampersand, U+2028 and U+2029. -/
def escapeChar (c : Char) : List Char :=
  if c = '"' then ['\\', '"']
  else if c = '\\' then ['\\', '\\']
  else if c = '\n' then ['\\', 'n']
  else if c = '\r' then ['\\', 'r']
  else if c = '\t' then ['\\', 't']
  else if c.toNat < 32 then
    ['\\', 'u', '0', '0', hexDigitChar (c.toNat / 16), hexDigitChar (c.toNat % 16)]
  else if c = '<' then ['\\', 'u', '0', '0', '3', 'c']
  else if c = '>' then ['\\', 'u', '0', '0', '3', 'e']
  else if c = '&' then ['\\', 'u', '0', '0', '2', '6']
  else if c.toNat = 0x2028 then ['\\', 'u', '2', '0', '2', '8']
  else if c.toNat = 0x2029 then ['\\', 'u', '2', '0', '2', '9']
  else [c]

def escapeStr (s : List Char) : List Char := s.flatMap escapeChar

def quoteStr (s : List Char) : List Char := '"' :: (escapeStr s ++ ['"'])

mutual

def printAt (d : Nat) : JValue → List Char
  | .num tok => tok
  | .bool false => ['f', 'a', 'l', 's', 'e']
  | .bool true => ['t', 'r', 'u', 'e']
  | .null => ['n', 'u', 'l', 'l']
  | .str s => quoteStr s
  | .arr .nil => ['[', ']']
  | .arr (.cons v a) =>
      '[' :: '\n' :: (indentAt (d + 1) ++ (printAt (d + 1) v ++
        (printTailA (d + 1) a ++ '\n' :: (indentAt d ++ [']']))))
  | .obj .nil => ['{', '}']
  | .obj (.cons k v o) =>
      '{' :: '\n' :: (indentAt (d + 1) ++ (quoteStr k ++ ':' :: ' ' ::
        (printAt (d + 1) v ++ (printTailO (d + 1) o ++ '\n' :: (indentAt d ++ ['}'])))))

def printTailA (d : Nat) : JArr → List Char
  | .nil => []
  | .cons v a => ',' :: '\n' :: (indentAt d ++ (printAt d v ++ printTailA d a))

def printTailO (d : Nat) : JObj → List Char
  | .nil => []
  | .cons k v o =>
      ',' :: '\n' :: (indentAt d ++ (quoteStr k ++ ':' :: ' ' ::
        (printAt d v ++ printTailO d o)))

end

def jsonMarshalIndent (v : JValue) : List Char := printAt 0 v

/-- The pretty-print transform both handlers apply when PrettyPrintJSON is
set: json.Unmarshal into interface, then json.MarshalIndent with two-space
indent.  none models the Unmarshal error (the 502 branch); MarshalIndent
cannot fail on a value produced by Unmarshal, so its error branch (the Go
500 path) is unreachable in the model. -/
def jsonFormat (cs : List Char) : Option (List Char) :=
  (jsonUnmarshal cs).map jsonMarshalIndent

/-! ## Canonical shape of parsed values

Predicates used to state the round-trip property of the formatter: every
value the parser produces has validated number tokens and key-sorted,
duplicate-free objects, and printing such a value parses back to it. -/

/-- A remainder that cannot extend a numeral token: empty or headed by a
non-numeral character.  Every JSON delimiter and all printing whitespace
qualify. -/
def numDelim : List Char → Bool
  | [] => true
  | c :: _ => !isNumChar c

/-- Every key of the object is strictly below k. -/
def allKeysLt : JObj → List Char → Bool
  | .nil, _ => true
  | .cons k2 _ rest, k => strLt k2 k && allKeysLt rest k

/-- k is strictly below every key of the object. -/
def keyLtAll (k : List Char) : JObj → Bool
  | .nil => true
  | .cons k2 _ rest => strLt k k2 && keyLtAll k rest

/-- Keys strictly ascending (hence duplicate-free). -/
def objSorted : JObj → Bool
  | .nil => true
  | .cons k _ o => keyLtAll k o && objSorted o

/-- Every key of the first object is strictly below every key of the second. -/
def belowAll (acc : JObj) : JObj → Bool
  | .nil => true
  | .cons k _ o => allKeysLt acc k && belowAll acc o

def objAppend : JObj → JObj → JObj
  | .nil, o2 => o2
  | .cons k v o, o2 => .cons k v (objAppend o o2)

mutual

inductive CanonV : JValue → Prop where
  | null : CanonV .null
  | bool (b : Bool) : CanonV (.bool b)
  | num (tok : List Char) (hall : tok.all isNumChar = true)
      (hval : validNum tok = true) : CanonV (.num tok)
  | str (s : List Char) : CanonV (.str s)
  | arr (a : JArr) (h : CanonA a) : CanonV (.arr a)
  | obj (o : JObj) (hsorted : objSorted o = true) (h : CanonO o) : CanonV (.obj o)

inductive CanonA : JArr → Prop where
  | nil : CanonA .nil
  | cons (v : JValue) (a : JArr) : CanonV v → CanonA a → CanonA (.cons v a)

inductive CanonO : JObj → Prop where
  | nil : CanonO .nil
  | cons (k : List Char) (v : JValue) (o : JObj) :
      CanonV v → CanonO o → CanonO (.cons k v o)

end

/-! ## Content hash

writeJSONResponse derives the ETag as the lowercase hex encoding of the
SHA-256 digest of the body, wrapped in double quotes (crypto/sha256 and
hex.EncodeToString).  SHA-256 is implemented here over byte lists, with
uint32 arithmetic as Nat reduced modulo 2^32; the body's characters are
first encoded to their UTF-8 bytes, since Go hashes the raw byte slice. -/

def w32 (n : Nat) : Nat := n % 4294967296

def rotr32 (k x : Nat) : Nat := w32 ((x >>> k) ||| (x <<< (32 - k)))

def sSigma0 (x : Nat) : Nat := (rotr32 7 x) ^^^ (rotr32 18 x) ^^^ (x >>> 3)

def sSigma1 (x : Nat) : Nat := (rotr32 17 x) ^^^ (rotr32 19 x) ^^^ (x >>> 10)

def bSigma0 (x : Nat) : Nat := (rotr32 2 x) ^^^ (rotr32 13 x) ^^^ (rotr32 22 x)

def bSigma1 (x : Nat) : Nat := (rotr32 6 x) ^^^ (rotr32 11 x) ^^^ (rotr32 25 x)

def chFn (x y z : Nat) : Nat := (x &&& y) ^^^ ((x ^^^ 4294967295) &&& z)

def majFn (x y z : Nat) : Nat := (x &&& y) ^^^ (x &&& z) ^^^ (y &&& z)

def sha256K : List Nat :=
  [1116352408, 1899447441, 3049323471, 3921009573, 961987163, 1508970993,
   2453635748, 2870763221, 3624381080, 310598401, 607225278, 1426881987,
   1925078388, 2162078206, 2614888103, 3248222580, 3835390401, 4022224774,
   264347078, 604807628, 770255983, 1249150122, 1555081692, 1996064986,
   2554220882, 2821834349, 2952996808, 3210313671, 3336571891, 3584528711,
   113926993, 338241895, 666307205, 773529912, 1294757372, 1396182291,
   1695183700, 1986661051, 2177026350, 2456956037, 2730485921, 2820302411,
   3259730800, 3345764771, 3516065817, 3600352804, 4094571909, 275423344,
   430227734, 506948616, 659060556, 883997877, 958139571, 1322822218,
   1537002063, 1747873779, 1955562222, 2024104815, 2227730452, 2361852424,
   2428436474, 2756734187, 3204031479, 3329325298]

def sha256H0 : List Nat :=
  [1779033703, 3144134277, 1013904242, 2773480762,
   1359893119, 2600822924, 528734635, 1541459225]

def sha256Pad (msg : List Nat) : List Nat :=
  let lenBits := msg.length * 8
  let zeros := (64 - (msg.length + 9) % 64) % 64
  msg ++ 0x80 :: (List.replicate zeros 0 ++
    [lenBits >>> 56 % 256, lenBits >>> 48 % 256, lenBits >>> 40 % 256,
     lenBits >>> 32 % 256, lenBits >>> 24 % 256, lenBits >>> 16 % 256,
     lenBits >>> 8 % 256, lenBits % 256])

def chunksOf64 (l : List Nat) : List (List Nat) :=
  if l.isEmpty then [] else l.take 64 :: chunksOf64 (l.drop 64)
termination_by l.length
decreasing_by
  rename_i h
  simp only [List.isEmpty_iff] at h
  have hpos : 0 < l.length := List.length_pos.mpr (by simpa using h)
  simp only [List.length_drop]
  omega

def bytesToWords : List Nat → List Nat
  | a :: b :: c :: d :: rest => (((a * 256 + b) * 256 + c) * 256 + d) :: bytesToWords rest
  | _ => []

def extendSchedule (ws : List Nat) : Nat → List Nat
  | 0 => ws
  | n + 1 =>
      let len := ws.length
      let w := w32 (ws.getD (len - 16) 0 + sSigma0 (ws.getD (len - 15) 0) +
        ws.getD (len - 7) 0 + sSigma1 (ws.getD (len - 2) 0))
      extendSchedule (ws ++ [w]) n

def sha256Compress (hs ws : List Nat) : List Nat :=
  let final := (List.range 64).foldl (fun st i =>
    match st with
    | [a, b, c, d, e, ff, g, h] =>
        let t1 := w32 (h + bSigma1 e + chFn e ff g + sha256K.getD i 0 + ws.getD i 0)
        let t2 := w32 (bSigma0 a + majFn a b c)
        [w32 (t1 + t2), a, b, c, w32 (d + t1), e, ff, g]
    | st => st) hs
  List.zipWith (fun x y => w32 (x + y)) hs final

def sha256Bytes (msg : List Nat) : List Nat :=
  let blocks := chunksOf64 (sha256Pad msg)
  let hs := blocks.foldl (fun hs block =>
    sha256Compress hs (extendSchedule (bytesToWords block) 48)) sha256H0
  hs.flatMap (fun wd => [wd >>> 24 % 256, wd >>> 16 % 256, wd >>> 8 % 256, wd % 256])

/-- Go hex.EncodeToString: lowercase hex digits, two per byte. -/
def hexEncode (bytes : List Nat) : List Char :=
  bytes.flatMap (fun b => [hexDigitChar (b / 16 % 16), hexDigitChar (b % 16)])

def utf8EncodeChar (c : Char) : List Nat :=
  let n := c.toNat
  if n < 0x80 then [n]
  else if n < 0x800 then [0xC0 ||| (n >>> 6), 0x80 ||| (n &&& 0x3F)]
  else if n < 0x10000 then
    [0xE0 ||| (n >>> 12), 0x80 ||| ((n >>> 6) &&& 0x3F), 0x80 ||| (n &&& 0x3F)]
  else
    [0xF0 ||| (n >>> 18), 0x80 ||| ((n >>> 12) &&& 0x3F),
     0x80 ||| ((n >>> 6) &&& 0x3F), 0x80 ||| (n &&& 0x3F)]

def utf8Encode (s : List Char) : List Nat := s.flatMap utf8EncodeChar

/-- The ETag writeJSONResponse computes: quoted lowercase hex of the SHA-256
digest of the body bytes. -/
def etagOf (body : List Char) : List Char :=
  '"' :: (hexEncode (sha256Bytes (utf8Encode body)) ++ ['"'])

/-! ## Upstream client

UpstreamClient.Fetch, after request construction and the authorization
header (connection-level concerns outside this model): the transport either
fails, or yields a status and a body stream whose read may itself fail.
The status is checked against exactly http.StatusOK before the body is read;
the body is read through io.LimitReader with ceiling MaxResponseSize, and
io.ReadAll of a LimitReader returns the first MaxResponseSize bytes with a
nil error when the stream is longer — modelled as List.take. -/

def MaxResponseSize : Nat := 10 * 1024 * 1024

/-- What the wire produced for one Fetch call: a transport failure, a
response whose body read fails, or a response with the full body bytes. -/
inductive UpstreamOutcome where
  | transportError : UpstreamOutcome
  | readError (status : Nat) : UpstreamOutcome
  | response (status : Nat) (body : List Nat) : UpstreamOutcome

inductive FetchError where
  | requestFailed : FetchError
  | badStatus (status : Nat) : FetchError
  | bodyReadFailed : FetchError
deriving DecidableEq

def UpstreamClient.Fetch : UpstreamOutcome → Except FetchError (List Nat)
  | .transportError => .error .requestFailed
  | .readError status =>
      if status ≠ 200 then .error (.badStatus status) else .error .bodyReadFailed
  | .response status body =>
      if status ≠ 200 then .error (.badStatus status)
      else .ok (body.take MaxResponseSize)

/-! ## Configuration and cache -/

/-- The two configuration fields the serving core reads. -/
structure Config where
  CacheTTLSeconds : Nat
  PrettyPrintJSON : Bool

structure CacheEntry where
  Body : List Char
  ExpiresAt : Nat
deriving DecidableEq

/-- The cache: a Go map from path to entry, with the TTL.  The map is
modelled as an association list with replacement on insert. -/
structure Cache where
  entries : List (String × CacheEntry)
  ttl : Nat
deriving DecidableEq

def NewCache (ttl : Nat) : Cache := ⟨[], ttl⟩

def lookupEntry : List (String × CacheEntry) → String → Option CacheEntry
  | [], _ => none
  | (k2, e) :: rest, k => if k2 = k then some e else lookupEntry rest k

def mapInsert : List (String × CacheEntry) → String → CacheEntry → List (String × CacheEntry)
  | [], k, e => [(k, e)]
  | (k2, e2) :: rest, k, e =>
      if k2 = k then (k, e) :: rest else (k2, e2) :: mapInsert rest k e

/-- Cache.Get: the entry if present and not expired.  time.Now().After is a
strict comparison, so an entry whose ExpiresAt equals now is still served. -/
def Cache.Get (c : Cache) (now : Nat) (key : String) : Option (List Char) :=
  match lookupEntry c.entries key with
  | none => none
  | some entry => if now > entry.ExpiresAt then none else some entry.Body

/-- Modelled from the spec: Cache.GetStale is absent from the sources (only
its tests and call sites are present).  Per the spec it returns the entry if
present, irrespective of expiry, and nothing if no entry was ever stored. -/
def Cache.GetStale (c : Cache) (key : String) : Option (List Char) :=
  (lookupEntry c.entries key).map (fun e => e.Body)

/-- Cache.Set: unconditionally replace the entry, stamping now + ttl. -/
def Cache.Set (c : Cache) (now : Nat) (key : String) (body : List Char) : Cache :=
  ⟨mapInsert c.entries key ⟨body, now + c.ttl⟩, c.ttl⟩

/-! ## HTTP responses and handlers -/

/-- The outward representation a handler writes: status, the headers the
gateway itself sets, and the body. -/
structure Response where
  status : Nat
  contentType : Option String
  cacheControl : Option String
  etag : Option String
  body : List Char
deriving DecidableEq

/-- writeJSONResponse: content hash as quoted ETag, the JSON content type,
and Cache-Control max-age from the configured TTL. -/
def writeJSONResponse (cfg : Config) (body : List Char) (statusCode : Nat) : Response :=
  { status := statusCode
    contentType := some "application/json"
    cacheControl := some ("max-age=" ++ toString cfg.CacheTTLSeconds)
    etag := some (String.mk (etagOf body))
    body := body }

/-- Go's http.Error: plain-text content type, the message plus a newline. -/
def httpError (msg : String) (code : Nat) : Response :=
  { status := code
    contentType := some "text/plain; charset=utf-8"
    cacheControl := none
    etag := none
    body := msg.data ++ ['\n'] }

/-- A handler run's observable result: the response, the cache afterwards,
and the arguments of every Cache.Set call it made, in order. -/
structure HandlerOutcome where
  resp : Response
  cache : Cache
  stores : List (String × List Char)
deriving DecidableEq

def discoveryPath : String := "/.well-known/openid-configuration"

def jwksPath : String := "/openid/v1/jwks"

/-- handleCachedEndpoint.  The fetch outcome stands for
upstreamClient.Fetch(r.Context(), path), its ok payload being the fetched
bytes; the cache, clock and config are the surrounding state.  Mirrors the
source: fresh Get, on miss Fetch, on fetch error GetStale then 502, on
success optional pretty-print (parse error 502; re-marshal cannot fail on a
parsed value, so the source's 500 branch is unreachable), Set, respond. -/
def handleCachedEndpoint (cfg : Config) (cache : Cache) (now : Nat)
    (fetchResult : Except FetchError (List Char)) (path : String) : HandlerOutcome :=
  match Cache.Get cache now path with
  | some cached => ⟨writeJSONResponse cfg cached 200, cache, []⟩
  | none =>
    match fetchResult with
    | .error _ =>
        match Cache.GetStale cache path with
        | some staleData => ⟨writeJSONResponse cfg staleData 200, cache, []⟩
        | none => ⟨httpError "Bad Gateway" 502, cache, []⟩
    | .ok body =>
        if cfg.PrettyPrintJSON then
          match jsonUnmarshal body with
          | none => ⟨httpError "Bad Gateway" 502, cache, []⟩
          | some jsonData =>
              let prettyJSON := jsonMarshalIndent jsonData
              ⟨writeJSONResponse cfg prettyJSON 200,
               Cache.Set cache now path prettyJSON, [(path, prettyJSON)]⟩
        else
          ⟨writeJSONResponse cfg body 200, Cache.Set cache now path body, [(path, body)]⟩

/-- HandleOIDCDiscovery: method gate, then the shared cached-endpoint logic
at the discovery path. -/
def HandleOIDCDiscovery (cfg : Config) (cache : Cache) (now : Nat)
    (method : String) (fetchResult : Except FetchError (List Char)) : HandlerOutcome :=
  if method ≠ "GET" then ⟨httpError "Method Not Allowed" 405, cache, []⟩
  else handleCachedEndpoint cfg cache now fetchResult discoveryPath

/-- HandleJWKS: method gate, then the shared cached-endpoint logic at the
JWKS path. -/
def HandleJWKS (cfg : Config) (cache : Cache) (now : Nat)
    (method : String) (fetchResult : Except FetchError (List Char)) : HandlerOutcome :=
  if method ≠ "GET" then ⟨httpError "Method Not Allowed" 405, cache, []⟩
  else handleCachedEndpoint cfg cache now fetchResult jwksPath

/-- populateCache: fetch both known paths in order, stopping at the first
error; each fetched body goes through the same optional pretty-print
processing as the request path, then Cache.Set.  The two fetch outcomes are
the results of the two upstreamClient.Fetch calls; upstreamConfigured models
the a.upstreamClient == nil guard.  The source mutates a.cache in place, so
a run that stores the discovery document and then fails on the JWKS step
leaves that store behind: the error payload carries the cache as mutated so
far together with the Cache.Set calls already made, exactly like the ok
payload. -/
def populateCache (cfg : Config) (cache : Cache) (now : Nat)
    (upstreamConfigured : Bool)
    (fetchDiscovery fetchJWKS : Except FetchError (List Char)) :
    Except (Cache × List (String × List Char)) (Cache × List (String × List Char)) :=
  if !upstreamConfigured then .error (cache, [])
  else
    match fetchDiscovery with
    | .error _ => .error (cache, [])
    | .ok body1 =>
        match (if cfg.PrettyPrintJSON then jsonFormat body1 else some body1) with
        | none => .error (cache, [])
        | some processed1 =>
            let cache1 := Cache.Set cache now discoveryPath processed1
            match fetchJWKS with
            | .error _ => .error (cache1, [(discoveryPath, processed1)])
            | .ok body2 =>
                match (if cfg.PrettyPrintJSON then jsonFormat body2 else some body2) with
                | none => .error (cache1, [(discoveryPath, processed1)])
                | some processed2 =>
                    .ok (Cache.Set cache1 now jwksPath processed2,
                         [(discoveryPath, processed1), (jwksPath, processed2)])

/-- HandleHealthz: method gate, then a synchronous populateCache; 503 on
failure, 200 with body OK on success.  Either way the outcome records the
cache and the Cache.Set calls as populateCache left them. -/
def HandleHealthz (cfg : Config) (cache : Cache) (now : Nat) (method : String)
    (upstreamConfigured : Bool)
    (fetchDiscovery fetchJWKS : Except FetchError (List Char)) : HandlerOutcome :=
  if method ≠ "GET" then ⟨httpError "Method Not Allowed" 405, cache, []⟩
  else
    match populateCache cfg cache now upstreamConfigured fetchDiscovery fetchJWKS with
    | .error (c2, stores) => ⟨httpError "Service Unhealthy" 503, c2, stores⟩
    | .ok (c2, stores) =>
        ⟨{ status := 200, contentType := none, cacheControl := none,
           etag := none, body := "OK".data }, c2, stores⟩

/-- HandleReadyz: identical to HandleHealthz but for the error message. -/
def HandleReadyz (cfg : Config) (cache : Cache) (now : Nat) (method : String)
    (upstreamConfigured : Bool)
    (fetchDiscovery fetchJWKS : Except FetchError (List Char)) : HandlerOutcome :=
  if method ≠ "GET" then ⟨httpError "Method Not Allowed" 405, cache, []⟩
  else
    match populateCache cfg cache now upstreamConfigured fetchDiscovery fetchJWKS with
    | .error (c2, stores) => ⟨httpError "Service Unavailable" 503, c2, stores⟩
    | .ok (c2, stores) =>
        ⟨{ status := 200, contentType := none, cacheControl := none,
           etag := none, body := "OK".data }, c2, stores⟩

/-! ## Cache operation traces

The cache module's only mutating operation is Set (there is no delete), so
a trace of mutations is a list of Set calls. -/

inductive CacheOp where
  | set (now : Nat) (key : String) (body : List Char) : CacheOp

def applyOps (c : Cache) : List CacheOp → Cache
  | [] => c
  | .set now k b :: rest => applyOps (Cache.Set c now k b) rest

/-- The body of the last Set for a key within a trace, if any. -/
def lastSetIn (key : String) : List CacheOp → Option (List Char)
  | [] => none
  | .set _ k b :: rest =>
      match lastSetIn key rest with
      | some b2 => some b2
      | none => if k = key then some b else none

/-! ## Cache lemmas -/

theorem lookup_mapInsert_self (l : List (String × CacheEntry)) (k : String) (e : CacheEntry) :
    lookupEntry (mapInsert l k e) k = some e := by
  induction l with
  | nil => simp [mapInsert, lookupEntry]
  | cons p rest ih =>
      obtain ⟨k2, e2⟩ := p
      by_cases h : k2 = k
      · simp [mapInsert, lookupEntry, h]
      · simp [mapInsert, lookupEntry, h, ih]

theorem lookup_mapInsert_ne (l : List (String × CacheEntry)) (k k2 : String) (e : CacheEntry)
    (h : k ≠ k2) : lookupEntry (mapInsert l k e) k2 = lookupEntry l k2 := by
  induction l with
  | nil => simp [mapInsert, lookupEntry, h]
  | cons p rest ih =>
      obtain ⟨k3, e3⟩ := p
      by_cases h3 : k3 = k
      · subst h3
        simp [mapInsert, lookupEntry, h]
      · simp only [mapInsert, if_neg h3]
        by_cases h4 : k3 = k2
        · simp [lookupEntry, h4]
        · simp [lookupEntry, h4, ih]

theorem getStale_set_self (c : Cache) (now : Nat) (k : String) (b : List Char) :
    Cache.GetStale (Cache.Set c now k b) k = some b := by
  simp [Cache.GetStale, Cache.Set, lookup_mapInsert_self]

theorem getStale_set_ne (c : Cache) (now : Nat) (k k2 : String) (b : List Char)
    (h : k ≠ k2) : Cache.GetStale (Cache.Set c now k b) k2 = Cache.GetStale c k2 := by
  simp [Cache.GetStale, Cache.Set, lookup_mapInsert_ne _ _ _ _ h]

theorem applyOps_getStale (ops : List CacheOp) (c : Cache) (key : String) :
    Cache.GetStale (applyOps c ops) key =
      match lastSetIn key ops with
      | some b => some b
      | none => Cache.GetStale c key := by
  induction ops generalizing c with
  | nil => simp [applyOps, lastSetIn]
  | cons op rest ih =>
      obtain ⟨now, k, b⟩ := op
      simp only [applyOps, lastSetIn, ih]
      cases lastSetIn key rest with
      | some b2 => simp
      | none =>
          by_cases h : k = key
          · subst h
            simp [getStale_set_self]
          · simp [h, getStale_set_ne _ _ _ _ _ h]

/-! ## Claim theorems -/

/-- Claim C2: a fresh Cache.Get hit always carries an entry whose expiry is
not strictly in the past at the time of the lookup, and an entry whose
expiry has passed is reported as a miss. -/
theorem claim_C2_get_freshness (c : Cache) (now : Nat) (key : String) :
    (∀ body, Cache.Get c now key = some body →
       ∃ e, lookupEntry c.entries key = some e ∧ e.Body = body ∧ ¬ e.ExpiresAt < now)
    ∧ (∀ e, lookupEntry c.entries key = some e → e.ExpiresAt < now →
       Cache.Get c now key = none) := by
  constructor
  · intro body h
    cases hl : lookupEntry c.entries key with
    | none => simp [Cache.Get, hl] at h
    | some e =>
        simp only [Cache.Get, hl] at h
        by_cases hx : now > e.ExpiresAt
        · simp [hx] at h
        · simp only [if_neg hx] at h
          exact ⟨e, rfl, Option.some.inj h, by omega⟩
  · intro e hl hx
    simp [Cache.Get, hl, hx]

/-- Claim C2 witness: a concrete fresh hit and a concrete expired miss. -/
theorem claim_C2_witness :
    (∃ e, lookupEntry (Cache.mk [("k", ⟨['x'], 10⟩)] 60).entries "k" = some e ∧
       e.Body = ['x'] ∧ ¬ e.ExpiresAt < 7)
    ∧ Cache.Get (Cache.mk [("k", ⟨['x'], 10⟩)] 60) 11 "k" = none :=
  ⟨(claim_C2_get_freshness (Cache.mk [("k", ⟨['x'], 10⟩)] 60) 7 "k").1 ['x'] (by decide),
   (claim_C2_get_freshness (Cache.mk [("k", ⟨['x'], 10⟩)] 60) 11 "k").2 ⟨['x'], 10⟩
     (by decide) (by decide)⟩

/-- Claim C3 counterexample: an upstream body one byte past the ceiling is
not rejected; Fetch succeeds and silently returns the truncated prefix
(io.LimitReader caps the read and io.ReadAll then sees a clean EOF, so no
error is ever raised for an oversized body). -/
theorem claim_C3_counterexample :
    (List.replicate (MaxResponseSize + 1) (0 : Nat)).length > MaxResponseSize
    ∧ UpstreamClient.Fetch (.response 200 (List.replicate (MaxResponseSize + 1) 0)) =
        .ok (List.replicate MaxResponseSize 0) := by
  constructor
  · simp
  · simp only [UpstreamClient.Fetch, ne_eq, not_true_eq_false, if_false,
      List.take_replicate, Except.ok.injEq]
    congr 1

/-- Claim C3 as amended: Fetch never returns more than the 10 MiB ceiling —
a 200 response's body is truncated to its first MaxResponseSize bytes and
returned without error, and a body at or under the ceiling is returned in
full. -/
theorem claim_C3_size_ceiling (b : List Nat) :
    UpstreamClient.Fetch (.response 200 b) = .ok (b.take MaxResponseSize)
    ∧ (b.take MaxResponseSize).length ≤ MaxResponseSize
    ∧ (b.length ≤ MaxResponseSize → UpstreamClient.Fetch (.response 200 b) = .ok b) := by
  refine ⟨by simp [UpstreamClient.Fetch], by simp, fun h => ?_⟩
  simp [UpstreamClient.Fetch, List.take_of_length_le h]

/-- Claim C3 amended witness: a small body is returned in full. -/
theorem claim_C3_witness :
    UpstreamClient.Fetch (.response 200 [7, 8]) = .ok [7, 8] :=
  (claim_C3_size_ceiling [7, 8]).2.2 (by norm_num [MaxResponseSize])

/-- Claim C10: Fetch fails for every upstream status other than exactly 200,
including other success statuses, and returns no body bytes. -/
theorem claim_C10_only_200 (status : Nat) (body : List Nat) (h : status ≠ 200) :
    UpstreamClient.Fetch (.response status body) = .error (.badStatus status)
    ∧ UpstreamClient.Fetch (.readError status) = .error (.badStatus status) := by
  constructor <;> simp [UpstreamClient.Fetch, h]

/-- Claim C10 witness: 201 and 204, success statuses in HTTP but not here,
are classified as fetch failures. -/
theorem claim_C10_witness :
    UpstreamClient.Fetch (.response 201 [123]) = .error (.badStatus 201)
    ∧ UpstreamClient.Fetch (.response 204 []) = .error (.badStatus 204) :=
  ⟨(claim_C10_only_200 201 [123] (by decide)).1,
   (claim_C10_only_200 204 [] (by decide)).1⟩

/-- Claim C1: when the fresh lookup misses but an entry (necessarily
expired) is still stored, a failing fetch is answered 200 with the
previously cached bytes — the stale-on-error path, not 502. -/
theorem claim_C1_stale_on_error (cfg : Config) (cache : Cache) (now : Nat)
    (path : String) (e : CacheEntry) (err : FetchError)
    (hmiss : Cache.Get cache now path = none)
    (hstored : lookupEntry cache.entries path = some e) :
    (handleCachedEndpoint cfg cache now (.error err) path).resp.status = 200
    ∧ (handleCachedEndpoint cfg cache now (.error err) path).resp.body = e.Body := by
  unfold handleCachedEndpoint
  rw [hmiss]
  simp [Cache.GetStale, hstored, writeJSONResponse]

/-- Claim C1 witness: a concrete expired entry served stale under a failing
fetch. -/
theorem claim_C1_witness :
    (handleCachedEndpoint ⟨60, true⟩ (Cache.mk [("p", ⟨['s'], 5⟩)] 60) 9
       (.error .requestFailed) "p").resp.status = 200
    ∧ (handleCachedEndpoint ⟨60, true⟩ (Cache.mk [("p", ⟨['s'], 5⟩)] 60) 9
       (.error .requestFailed) "p").resp.body = ['s'] :=
  claim_C1_stale_on_error ⟨60, true⟩ (Cache.mk [("p", ⟨['s'], 5⟩)] 60) 9 "p"
    ⟨['s'], 5⟩ .requestFailed (by decide) (by decide)

/-- Claim C4: when nothing was ever stored for the path and the fetch
fails, the handler answers 502 Bad Gateway. -/
theorem claim_C4_cold_outage (cfg : Config) (cache : Cache) (now : Nat)
    (path : String) (err : FetchError)
    (hempty : lookupEntry cache.entries path = none) :
    (handleCachedEndpoint cfg cache now (.error err) path).resp.status = 502
    ∧ (handleCachedEndpoint cfg cache now (.error err) path).resp.body =
        ("Bad Gateway".data ++ ['\n']) := by
  have hmiss : Cache.Get cache now path = none := by
    unfold Cache.Get
    rw [hempty]
  unfold handleCachedEndpoint
  rw [hmiss]
  simp [Cache.GetStale, hempty, httpError]

/-- Claim C4 witness: an empty cache with a failing fetch yields 502. -/
theorem claim_C4_witness :
    (handleCachedEndpoint ⟨60, true⟩ (NewCache 60) 0
       (.error .requestFailed) "p").resp.status = 502
    ∧ (handleCachedEndpoint ⟨60, true⟩ (NewCache 60) 0
       (.error .requestFailed) "p").resp.body = ("Bad Gateway".data ++ ['\n']) :=
  claim_C4_cold_outage ⟨60, true⟩ (NewCache 60) 0 "p" .requestFailed (by decide)

/-- Claim C5: after a Set for a key, GetStale answers for that key after any
further trace of cache mutations (the module's only mutator is Set — there is
no delete), returning the most recently stored body regardless of expiry. -/
theorem claim_C5_stale_completeness (c : Cache) (now : Nat) (k : String)
    (b : List Char) (ops : List CacheOp) :
    Cache.GetStale (applyOps (Cache.Set c now k b) ops) k =
      some ((lastSetIn k ops).getD b) := by
  rw [applyOps_getStale]
  cases h : lastSetIn k ops with
  | some b2 => simp
  | none => simp [getStale_set_self]

/-- Every response of handleCachedEndpoint is either writeJSONResponse with
status 200 on some body, or the 502 http.Error. -/
theorem handler_resp_cases (cfg : Config) (cache : Cache) (now : Nat)
    (fr : Except FetchError (List Char)) (path : String) :
    (∃ b, (handleCachedEndpoint cfg cache now fr path).resp = writeJSONResponse cfg b 200)
    ∨ (handleCachedEndpoint cfg cache now fr path).resp = httpError "Bad Gateway" 502 := by
  unfold handleCachedEndpoint
  cases hget : Cache.Get cache now path with
  | some cached => exact Or.inl ⟨cached, rfl⟩
  | none =>
      cases fr with
      | error e =>
          cases hs : Cache.GetStale cache path with
          | some stale => exact Or.inl ⟨stale, rfl⟩
          | none => exact Or.inr rfl
      | ok body =>
          cases hp : cfg.PrettyPrintJSON with
          | false => exact Or.inl ⟨body, by simp⟩
          | true =>
              cases hj : jsonUnmarshal body with
              | none => simp [hj]
              | some jsonData => exact Or.inl ⟨jsonMarshalIndent jsonData, by simp [hj]⟩

/-- Claim C8: every 200 document response — fresh hit, fetch-then-store and
stale-serve alike — carries Content-Type application/json, Cache-Control
max-age of the configured TTL, and the quoted content-hash ETag computed by
the pure function etagOf from the response body, so identical bytes always
yield an identical tag. -/
theorem claim_C8_success_headers (cfg : Config) (cache : Cache) (now : Nat)
    (fr : Except FetchError (List Char)) (path : String)
    (h : (handleCachedEndpoint cfg cache now fr path).resp.status = 200) :
    (handleCachedEndpoint cfg cache now fr path).resp.contentType =
      some "application/json"
    ∧ (handleCachedEndpoint cfg cache now fr path).resp.cacheControl =
        some ("max-age=" ++ toString cfg.CacheTTLSeconds)
    ∧ (handleCachedEndpoint cfg cache now fr path).resp.etag =
        some (String.mk (etagOf ((handleCachedEndpoint cfg cache now fr path).resp.body))) := by
  rcases handler_resp_cases cfg cache now fr path with ⟨b, hb⟩ | hb
  · rw [hb]
    exact ⟨rfl, rfl, rfl⟩
  · rw [hb] at h
    simp [httpError] at h

/-- Claim C8 witness: a concrete fresh hit carries the three headers. -/
theorem claim_C8_witness :
    (handleCachedEndpoint ⟨60, false⟩ (Cache.mk [("p", ⟨['x'], 10⟩)] 60) 0
       (.error .requestFailed) "p").resp.contentType = some "application/json"
    ∧ (handleCachedEndpoint ⟨60, false⟩ (Cache.mk [("p", ⟨['x'], 10⟩)] 60) 0
       (.error .requestFailed) "p").resp.cacheControl = some ("max-age=" ++ toString (60 : Nat))
    ∧ (handleCachedEndpoint ⟨60, false⟩ (Cache.mk [("p", ⟨['x'], 10⟩)] 60) 0
       (.error .requestFailed) "p").resp.etag =
        some (String.mk (etagOf ((handleCachedEndpoint ⟨60, false⟩
          (Cache.mk [("p", ⟨['x'], 10⟩)] 60) 0 (.error .requestFailed) "p").resp.body))) :=
  claim_C8_success_headers ⟨60, false⟩ (Cache.mk [("p", ⟨['x'], 10⟩)] 60) 0
    (.error .requestFailed) "p" rfl

/-- Claim C6: a GET to healthz or readyz answers 200 with body OK exactly
when the synchronous populateCache run — upstream fetch, optional
formatting and cache store for both known paths — succeeds, and 503 when it
fails. -/
theorem claim_C6_probe_population (cfg : Config) (cache : Cache) (now : Nat)
    (uc : Bool) (fd fj : Except FetchError (List Char)) :
    (((HandleHealthz cfg cache now "GET" uc fd fj).resp.status = 200 ∧
      (HandleHealthz cfg cache now "GET" uc fd fj).resp.body = "OK".data)
     ↔ ∃ res, populateCache cfg cache now uc fd fj = .ok res)
    ∧ ((∀ res, populateCache cfg cache now uc fd fj ≠ .ok res) →
       (HandleHealthz cfg cache now "GET" uc fd fj).resp.status = 503)
    ∧ (((HandleReadyz cfg cache now "GET" uc fd fj).resp.status = 200 ∧
      (HandleReadyz cfg cache now "GET" uc fd fj).resp.body = "OK".data)
     ↔ ∃ res, populateCache cfg cache now uc fd fj = .ok res)
    ∧ ((∀ res, populateCache cfg cache now uc fd fj ≠ .ok res) →
       (HandleReadyz cfg cache now "GET" uc fd fj).resp.status = 503) := by
  cases hp : populateCache cfg cache now uc fd fj with
  | ok res =>
      obtain ⟨c2, stores⟩ := res
      refine ⟨?_, ?_, ?_, ?_⟩
      · simp [HandleHealthz, hp]
      · intro habs
        exact absurd rfl (habs (c2, stores))
      · simp [HandleReadyz, hp]
      · intro habs
        exact absurd rfl (habs (c2, stores))
  | error e =>
      obtain ⟨c2, stores⟩ := e
      refine ⟨?_, ?_, ?_, ?_⟩
      · simp [HandleHealthz, hp, httpError]
      · intro _
        simp [HandleHealthz, hp, httpError]
      · simp [HandleReadyz, hp, httpError]
      · intro _
        simp [HandleReadyz, hp, httpError]

/-- Claim C6 witness: with both fetches succeeding (formatting disabled) the
probes answer 200 OK. -/
theorem claim_C6_witness :
    (HandleHealthz ⟨60, false⟩ (NewCache 60) 0 "GET" true (.ok ['1']) (.ok ['2'])).resp.status = 200
    ∧ (HandleHealthz ⟨60, false⟩ (NewCache 60) 0 "GET" true
        (.ok ['1']) (.ok ['2'])).resp.body = "OK".data :=
  (claim_C6_probe_population ⟨60, false⟩ (NewCache 60) 0 true
    (.ok ['1']) (.ok ['2'])).1.mpr ⟨_, rfl⟩

/-- With pretty-printing on, a handler run either stores nothing or stores
exactly the marshalled parse of the fetched bytes at its path. -/
theorem handler_stores_pretty (cfg : Config) (cache : Cache) (now : Nat)
    (fr : Except FetchError (List Char)) (path : String)
    (hpretty : cfg.PrettyPrintJSON = true) :
    (handleCachedEndpoint cfg cache now fr path).stores = []
    ∨ ∃ raw jd, fr = .ok raw ∧ jsonUnmarshal raw = some jd ∧
        (handleCachedEndpoint cfg cache now fr path).stores =
          [(path, jsonMarshalIndent jd)] := by
  unfold handleCachedEndpoint
  cases hget : Cache.Get cache now path with
  | some cached => exact Or.inl rfl
  | none =>
      cases fr with
      | error e =>
          cases hs : Cache.GetStale cache path with
          | some stale => exact Or.inl rfl
          | none => exact Or.inl rfl
      | ok body =>
          cases hj : jsonUnmarshal body with
          | none => exact Or.inl (by simp [hpretty, hj])
          | some jd => exact Or.inr ⟨body, jd, rfl, hj, by simp [hpretty, hj]⟩

/-- With pretty-printing on, a successful populateCache run stored exactly
the two formatted documents. -/
theorem populate_ok_shape (cfg : Config) (cache : Cache) (now : Nat) (uc : Bool)
    (fd fj : Except FetchError (List Char)) (hpretty : cfg.PrettyPrintJSON = true)
    (res : Cache × List (String × List Char)) :
    populateCache cfg cache now uc fd fj = .ok res →
    ∃ b1 p1 b2 p2, fd = .ok b1 ∧ fj = .ok b2 ∧ jsonFormat b1 = some p1 ∧
      jsonFormat b2 = some p2 ∧
      res.2 = [(discoveryPath, p1), (jwksPath, p2)] := by
  unfold populateCache
  cases uc with
  | false => intro h; simp at h
  | true =>
      simp only [Bool.not_true, Bool.false_eq_true, if_false]
      cases fd with
      | error e => intro h; simp at h
      | ok b1 =>
          intro h
          cases hf1 : (if cfg.PrettyPrintJSON then jsonFormat b1 else some b1) with
          | none => simp [hf1] at h
          | some p1 =>
              simp only [hf1] at h
              cases fj with
              | error e => simp at h
              | ok b2 =>
                  cases hf2 : (if cfg.PrettyPrintJSON then jsonFormat b2 else some b2) with
                  | none => simp [hf2] at h
                  | some p2 =>
                      simp only [hf2, Except.ok.injEq] at h
                      subst h
                      rw [hpretty, if_pos rfl] at hf1 hf2
                      exact ⟨b1, p1, b2, p2, rfl, rfl, hf1, hf2, rfl⟩

/-- With pretty-printing on, a failing populateCache run stored either
nothing or exactly the formatted discovery document before the failure. -/
theorem populate_error_shape (cfg : Config) (cache : Cache) (now : Nat) (uc : Bool)
    (fd fj : Except FetchError (List Char)) (hpretty : cfg.PrettyPrintJSON = true)
    (res : Cache × List (String × List Char)) :
    populateCache cfg cache now uc fd fj = .error res →
    res.2 = [] ∨ ∃ b1 p1, fd = .ok b1 ∧ jsonFormat b1 = some p1 ∧
      res.2 = [(discoveryPath, p1)] := by
  unfold populateCache
  cases uc with
  | false =>
      intro h
      simp only [Bool.not_false, if_true, Except.error.injEq] at h
      exact Or.inl (by rw [← h])
  | true =>
      simp only [Bool.not_true, Bool.false_eq_true, if_false]
      cases fd with
      | error e =>
          intro h
          simp only [Except.error.injEq] at h
          exact Or.inl (by rw [← h])
      | ok b1 =>
          intro h
          cases hf1 : (if cfg.PrettyPrintJSON then jsonFormat b1 else some b1) with
          | none =>
              simp only [hf1, Except.error.injEq] at h
              exact Or.inl (by rw [← h])
          | some p1 =>
              simp only [hf1] at h
              rw [hpretty, if_pos rfl] at hf1
              cases fj with
              | error e =>
                  simp only [Except.error.injEq] at h
                  exact Or.inr ⟨b1, p1, rfl, hf1, by rw [← h]⟩
              | ok b2 =>
                  cases hf2 : (if cfg.PrettyPrintJSON then jsonFormat b2 else some b2) with
                  | none =>
                      simp only [hf2, Except.error.injEq] at h
                      exact Or.inr ⟨b1, p1, rfl, hf1, by rw [← h]⟩
                  | some p2 => simp [hf2] at h

/-- Claim C7: with pretty-printing enabled, every byte sequence passed to
Cache.Set is the formatter's output on the fetched bytes — by the
client-facing request path, and by the population routine on successful and
on failing runs alike (a failing run can still have stored the discovery
document before the JWKS step failed) — so the cache only ever holds
canonical formatted documents. -/
theorem claim_C7_stores_formatted (cfg : Config) (cache : Cache) (now : Nat)
    (fr : Except FetchError (List Char)) (path : String)
    (uc : Bool) (fd fj : Except FetchError (List Char))
    (hpretty : cfg.PrettyPrintJSON = true) :
    (∀ p b, (p, b) ∈ (handleCachedEndpoint cfg cache now fr path).stores →
       ∃ raw, fr = .ok raw ∧ jsonFormat raw = some b)
    ∧ (∀ res p b, (populateCache cfg cache now uc fd fj = .ok res ∨
         populateCache cfg cache now uc fd fj = .error res) → (p, b) ∈ res.2 →
       ∃ raw, (fd = .ok raw ∨ fj = .ok raw) ∧ jsonFormat raw = some b) := by
  constructor
  · intro p b hmem
    rcases handler_stores_pretty cfg cache now fr path hpretty with h0 | ⟨raw, jd, hfr, hj, hst⟩
    · rw [h0] at hmem
      simp at hmem
    · rw [hst] at hmem
      simp only [List.mem_singleton, Prod.mk.injEq] at hmem
      exact ⟨raw, hfr, by simp [jsonFormat, hj, hmem.2]⟩
  · intro res p b hrun hmem
    rcases hrun with hok | herr
    · obtain ⟨b1, p1, b2, p2, hfd, hfj, hf1, hf2, hres⟩ :=
        populate_ok_shape cfg cache now uc fd fj hpretty res hok
      rw [hres] at hmem
      simp only [List.mem_cons, List.mem_singleton, Prod.mk.injEq,
        List.not_mem_nil, or_false] at hmem
      rcases hmem with ⟨_, hb⟩ | ⟨_, hb⟩
      · exact ⟨b1, Or.inl hfd, hb ▸ hf1⟩
      · exact ⟨b2, Or.inr hfj, hb ▸ hf2⟩
    · rcases populate_error_shape cfg cache now uc fd fj hpretty res herr with
        h0 | ⟨b1, p1, hfd, hf1, hres⟩
      · rw [h0] at hmem
        simp at hmem
      · rw [hres] at hmem
        simp only [List.mem_singleton, Prod.mk.injEq] at hmem
        exact ⟨b1, Or.inl hfd, hmem.2 ▸ hf1⟩

/-- Claim C7 witness: a population run whose JWKS fetch fails after storing
the formatted discovery document — that stored byte sequence equals the
formatter output of the fetched bytes. -/
theorem claim_C7_witness :
    ∃ raw, ((Except.ok (ε := FetchError) "{}".data) = .ok raw ∨
        (Except.error (α := List Char) FetchError.requestFailed) = .ok raw) ∧
      jsonFormat raw = some "{}".data :=
  (claim_C7_stores_formatted ⟨60, true⟩ (NewCache 60) 0 (.ok "{}".data) "p"
      true (.ok "{}".data) (.error FetchError.requestFailed) rfl).2
    (Cache.Set (NewCache 60) 0 discoveryPath "{}".data, [(discoveryPath, "{}".data)])
    discoveryPath "{}".data (Or.inr rfl) (by decide)

/-! ## Whitespace lemmas -/

theorem skipWs_cons_not {c : Char} {cs : List Char} (h : isWsChar c = false) :
    skipWs (c :: cs) = c :: cs := by
  simp [skipWs, h]

theorem skipWs_ws_lead {w : List Char} (h : ∀ c ∈ w, isWsChar c = true)
    (x : List Char) : skipWs (w ++ x) = skipWs x := by
  induction w with
  | nil => rfl
  | cons c t ih =>
      rw [List.cons_append]
      simp only [skipWs, h c (by simp)]
      exact ih (fun c2 hc2 => h c2 (by simp [hc2]))

theorem indentAt_ws (d : Nat) : ∀ c ∈ indentAt d, isWsChar c = true := by
  intro c hc
  have hc2 := List.eq_of_mem_replicate hc
  subst hc2
  decide

theorem skipWs_indent (d : Nat) (x : List Char) :
    skipWs (indentAt d ++ x) = skipWs x :=
  skipWs_ws_lead (indentAt_ws d) x

theorem skipWs_nl_indent (d : Nat) (x : List Char) :
    skipWs ('\n' :: (indentAt d ++ x)) = skipWs x := by
  have h1 : isWsChar '\n' = true := by decide
  simp only [skipWs, h1, if_true]
  exact skipWs_indent d x

/-! ## String escape round trip -/

theorem hexDigitVal_hexDigitChar {n : Nat} (h : n < 16) :
    hexDigitVal (hexDigitChar n) = some n := by
  interval_cases n <;> decide

theorem hex4_low (n : Nat) (h : n < 32) :
    hex4 '0' '0' (hexDigitChar (n / 16)) (hexDigitChar (n % 16)) = some n := by
  have h1 : hexDigitVal (hexDigitChar (n / 16)) = some (n / 16) :=
    hexDigitVal_hexDigitChar (by omega)
  have h2 : hexDigitVal (hexDigitChar (n % 16)) = some (n % 16) :=
    hexDigitVal_hexDigitChar (Nat.mod_lt _ (by omega))
  have h0 : hexDigitVal '0' = some 0 := by decide
  simp only [hex4, h0, h1, h2]
  congr 1
  omega

theorem parseStrAux_escapeChar (c : Char) (f : Nat) (acc rest : List Char) :
    parseStrAux (f + 1) acc (escapeChar c ++ rest) = parseStrAux f (c :: acc) rest := by
  by_cases h1 : c = '"'
  · subst h1; rfl
  by_cases h2 : c = '\\'
  · subst h2; rfl
  by_cases h3 : c = '\n'
  · subst h3; rfl
  by_cases h4 : c = '\r'
  · subst h4; rfl
  by_cases h5 : c = '\t'
  · subst h5; rfl
  by_cases h6 : c.toNat < 32
  · have hesc : escapeChar c =
        ['\\', 'u', '0', '0', hexDigitChar (c.toNat / 16), hexDigitChar (c.toNat % 16)] := by
      rw [escapeChar]
      rw [if_neg h1, if_neg h2, if_neg h3, if_neg h4, if_neg h5, if_pos h6]
    rw [hesc, List.cons_append, List.cons_append, List.cons_append,
      List.cons_append, List.cons_append, List.cons_append, List.nil_append]
    simp only [parseStrAux, hex4_low c.toNat h6]
    have hns : isSurrogateCode c.toNat = false := by
      simp only [isSurrogateCode]
      simp only [Bool.and_eq_false_iff, decide_eq_false_iff_not, not_le, not_lt]
      left
      omega
    simp [hns, Char.ofNat_toNat]
  by_cases h7 : c = '<'
  · subst h7; rfl
  by_cases h8 : c = '>'
  · subst h8; rfl
  by_cases h9 : c = '&'
  · subst h9; rfl
  by_cases h10 : c.toNat = 0x2028
  · have hesc : escapeChar c = ['\\', 'u', '2', '0', '2', '8'] := by
      rw [escapeChar]
      rw [if_neg h1, if_neg h2, if_neg h3, if_neg h4, if_neg h5, if_neg h6,
        if_neg h7, if_neg h8, if_neg h9, if_pos h10]
    rw [hesc]
    have hx : hex4 '2' '0' '2' '8' = some 0x2028 := by decide
    simp only [List.cons_append, List.nil_append, parseStrAux, hx]
    have hns : isSurrogateCode 0x2028 = false := by decide
    rw [hns]
    simp only [Bool.false_eq_true, if_false]
    have hcc : Char.ofNat 0x2028 = c := by
      rw [show (0x2028 : Nat) = c.toNat from h10.symm, Char.ofNat_toNat]
    rw [hcc]
  by_cases h11 : c.toNat = 0x2029
  · have hesc : escapeChar c = ['\\', 'u', '2', '0', '2', '9'] := by
      rw [escapeChar]
      rw [if_neg h1, if_neg h2, if_neg h3, if_neg h4, if_neg h5, if_neg h6,
        if_neg h7, if_neg h8, if_neg h9, if_neg h10, if_pos h11]
    rw [hesc]
    have hx : hex4 '2' '0' '2' '9' = some 0x2029 := by decide
    simp only [List.cons_append, List.nil_append, parseStrAux, hx]
    have hns : isSurrogateCode 0x2029 = false := by decide
    rw [hns]
    simp only [Bool.false_eq_true, if_false]
    have hcc : Char.ofNat 0x2029 = c := by
      rw [show (0x2029 : Nat) = c.toNat from h11.symm, Char.ofNat_toNat]
    rw [hcc]
  · have hesc : escapeChar c = [c] := by
      rw [escapeChar]
      rw [if_neg h1, if_neg h2, if_neg h3, if_neg h4, if_neg h5, if_neg h6,
        if_neg h7, if_neg h8, if_neg h9, if_neg h10, if_neg h11]
    rw [hesc, List.cons_append, List.nil_append, parseStrAux.eq_def]
    simp [h1, h2, h6]

theorem parseStrAux_escapeStr (s : List Char) : ∀ (f : Nat) (acc rest : List Char),
    s.length ≤ f →
    parseStrAux (f + 1) acc (escapeStr s ++ '"' :: rest) = some (acc.reverse ++ s, rest) := by
  induction s with
  | nil =>
      intro f acc rest _
      simp [escapeStr, parseStrAux]
  | cons c t ih =>
      intro f acc rest hf
      obtain ⟨f2, rfl⟩ : ∃ f2, f = f2 + 1 := ⟨f - 1, by simp at hf; omega⟩
      rw [escapeStr, List.flatMap_cons, List.append_assoc, parseStrAux_escapeChar]
      have h2 : parseStrAux (f2 + 1) (c :: acc) (escapeStr t ++ '"' :: rest) =
          some ((c :: acc).reverse ++ t, rest) :=
        ih f2 (c :: acc) rest (by simp at hf; omega)
      rw [show t.flatMap escapeChar = escapeStr t from rfl, h2]
      simp

set_option maxHeartbeats 1000000 in
theorem escapeChar_length_pos (c : Char) : 0 < (escapeChar c).length := by
  unfold escapeChar
  repeat' split
  all_goals exact Nat.succ_pos _

theorem escapeStr_length_ge (s : List Char) : s.length ≤ (escapeStr s).length := by
  induction s with
  | nil => simp [escapeStr]
  | cons c t ih =>
      rw [escapeStr, List.flatMap_cons, List.length_append]
      have := escapeChar_length_pos c
      rw [show t.flatMap escapeChar = escapeStr t from rfl]
      simp only [List.length_cons]
      omega

/-- Parsing a string literal with the fuel the parser supplies recovers the
escaped contents. -/
theorem parse_quoteStr (s rest : List Char) :
    parseStrAux ((escapeStr s ++ '"' :: rest).length + 1) [] (escapeStr s ++ '"' :: rest)
      = some (s, rest) := by
  have hlen : s.length ≤ (escapeStr s ++ '"' :: rest).length := by
    rw [List.length_append]
    have := escapeStr_length_ge s
    omega
  rw [parseStrAux_escapeStr s _ [] rest hlen]
  rfl

/-! ## Numeral munch round trip -/

theorem numChar_span {tok : List Char} (rest : List Char)
    (hall : tok.all isNumChar = true) (hr : numDelim rest = true) :
    (tok ++ rest).takeWhile isNumChar = tok
    ∧ (tok ++ rest).dropWhile isNumChar = rest := by
  induction tok with
  | nil =>
      cases rest with
      | nil => exact ⟨rfl, rfl⟩
      | cons c r =>
          simp only [numDelim, Bool.not_eq_true'] at hr
          simp [List.takeWhile_cons, List.dropWhile_cons, hr]
  | cons c t ih =>
      simp only [List.all_cons, Bool.and_eq_true] at hall
      obtain ⟨ht, hd⟩ := ih hall.2
      simp [List.takeWhile_cons, List.dropWhile_cons, hall.1, ht, hd]

theorem parseNum_token {tok : List Char} (rest : List Char)
    (hall : tok.all isNumChar = true) (hval : validNum tok = true)
    (hr : numDelim rest = true) :
    parseNum (tok ++ rest) = some (.num tok, rest) := by
  obtain ⟨htake, hdrop⟩ := numChar_span rest hall hr
  simp [parseNum, htake, hdrop, hval]

/-! ## Key order and the sorted-insertion map -/

theorem charToNat_inj {a b : Char} (h : a.toNat = b.toNat) : a = b :=
  Char.ext (UInt32.ext h)

theorem strLt_irrefl (a : List Char) : strLt a a = false := by
  induction a with
  | nil => rfl
  | cons c t ih => simp [strLt, ih]

theorem strLt_trans {a b c : List Char} (h1 : strLt a b = true)
    (h2 : strLt b c = true) : strLt a c = true := by
  induction a generalizing b c with
  | nil =>
      cases b with
      | nil => simp [strLt] at h1
      | cons b1 bt =>
          cases c with
          | nil => simp [strLt] at h2
          | cons c1 ct => rfl
  | cons a1 at2 ih =>
      cases b with
      | nil => simp [strLt] at h1
      | cons b1 bt =>
          cases c with
          | nil => simp [strLt] at h2
          | cons c1 ct =>
              simp only [strLt] at h1 h2 ⊢
              by_cases hab : a1.toNat < b1.toNat
              · by_cases hbc : b1.toNat < c1.toNat
                · simp [show a1.toNat < c1.toNat from by omega]
                · rw [if_pos hab] at h1
                  rw [if_neg hbc] at h2
                  by_cases hcb : c1.toNat < b1.toNat
                  · simp [hcb] at h2
                  · simp [show a1.toNat < c1.toNat from by omega]
              · rw [if_neg hab] at h1
                by_cases hba : b1.toNat < a1.toNat
                · simp [hba] at h1
                · rw [if_neg hba] at h1
                  by_cases hbc : b1.toNat < c1.toNat
                  · rw [if_pos hbc] at h2
                    simp [show a1.toNat < c1.toNat from by omega]
                  · rw [if_neg hbc] at h2
                    by_cases hcb : c1.toNat < b1.toNat
                    · simp [hcb] at h2
                    · rw [if_neg hcb] at h2
                      have hac : ¬ a1.toNat < c1.toNat := by omega
                      have hca : ¬ c1.toNat < a1.toNat := by omega
                      rw [if_neg hac, if_neg hca]
                      exact ih h1 h2

theorem strLt_total {a b : List Char} (h1 : strLt a b = false) (h2 : a ≠ b) :
    strLt b a = true := by
  induction a generalizing b with
  | nil =>
      cases b with
      | nil => exact absurd rfl h2
      | cons b1 bt => simp [strLt] at h1
  | cons a1 at2 ih =>
      cases b with
      | nil => rfl
      | cons b1 bt =>
          simp only [strLt] at h1 ⊢
          by_cases hab : a1.toNat < b1.toNat
          · simp [hab] at h1
          · rw [if_neg hab] at h1
            by_cases hba : b1.toNat < a1.toNat
            · rw [if_pos hba]
            · rw [if_neg hba] at h1
              have he : a1 = b1 := charToNat_inj (by omega)
              subst he
              have hne : at2 ≠ bt := by
                intro hx
                exact h2 (by rw [hx])
              rw [if_neg hba, if_neg hab]
              exact ih h1 hne

theorem strLt_ne {a b : List Char} (h : strLt a b = true) : a ≠ b := by
  intro he
  subst he
  rw [strLt_irrefl] at h
  exact absurd h (by simp)

theorem strLt_asymm {a b : List Char} (h : strLt a b = true) : strLt b a = false := by
  by_cases h2 : strLt b a = true
  · have := strLt_trans h h2
    rw [strLt_irrefl] at this
    exact absurd this (by simp)
  · simpa using h2

theorem keyLtAll_trans {k k2 : List Char} (h : strLt k k2 = true) :
    ∀ {o : JObj}, keyLtAll k2 o = true → keyLtAll k o = true
  | .nil, _ => rfl
  | .cons k3 v3 o3, h2 => by
      simp only [keyLtAll, Bool.and_eq_true] at h2 ⊢
      exact ⟨strLt_trans h h2.1, keyLtAll_trans h h2.2⟩

theorem keyLtAll_insertField {k0 k : List Char} (v : JValue)
    (h1 : strLt k0 k = true) :
    ∀ {o : JObj}, keyLtAll k0 o = true → keyLtAll k0 (insertField k v o) = true
  | .nil, _ => by simp [insertField, keyLtAll, h1]
  | .cons k2 v2 o2, h2 => by
      simp only [keyLtAll, Bool.and_eq_true] at h2
      by_cases hlt : strLt k k2 = true
      · simp only [insertField, if_pos hlt, keyLtAll, Bool.and_eq_true]
        exact ⟨h1, h2.1, h2.2⟩
      · by_cases heq : k = k2
        · simp only [insertField, if_neg hlt, if_pos heq, keyLtAll, Bool.and_eq_true]
          exact ⟨h2.1, h2.2⟩
        · simp only [insertField, if_neg hlt, if_neg heq, keyLtAll, Bool.and_eq_true]
          exact ⟨h2.1, keyLtAll_insertField v h1 h2.2⟩

theorem insertField_sorted (k : List Char) (v : JValue) :
    ∀ {o : JObj}, objSorted o = true → objSorted (insertField k v o) = true
  | .nil, _ => by simp [insertField, objSorted, keyLtAll]
  | .cons k2 v2 o2, h => by
      simp only [objSorted, Bool.and_eq_true] at h
      by_cases hlt : strLt k k2 = true
      · simp only [insertField, if_pos hlt, objSorted, keyLtAll, Bool.and_eq_true]
        exact ⟨⟨hlt, keyLtAll_trans hlt h.1⟩, h.1, h.2⟩
      · by_cases heq : k = k2
        · simp only [insertField, if_neg hlt, if_pos heq, objSorted, Bool.and_eq_true]
          exact h
        · have hgt : strLt k2 k = true := strLt_total (by simpa using hlt) heq
          simp only [insertField, if_neg hlt, if_neg heq, objSorted, Bool.and_eq_true]
          exact ⟨keyLtAll_insertField v hgt h.1, insertField_sorted k v h.2⟩

theorem canonInto_sorted : ∀ (o : JObj) {acc : JObj}, objSorted acc = true →
    objSorted (canonInto acc o) = true
  | .nil, _, h => h
  | .cons k v o2, _, h => canonInto_sorted o2 (insertField_sorted k v h)

theorem canonObj_sorted (o : JObj) : objSorted (canonObj o) = true :=
  canonInto_sorted o (show objSorted JObj.nil = true from rfl)

theorem canonO_insertField {k : List Char} {v : JValue} (hv : CanonV v) :
    ∀ {o : JObj}, CanonO o → CanonO (insertField k v o)
  | .nil, _ => CanonO.cons _ _ _ hv CanonO.nil
  | .cons k2 v2 o2, ho => by
      cases ho with
      | cons _ _ _ hv2 ho2 =>
          by_cases hlt : strLt k k2 = true
          · simp only [insertField, if_pos hlt]
            exact CanonO.cons _ _ _ hv (CanonO.cons _ _ _ hv2 ho2)
          · by_cases heq : k = k2
            · simp only [insertField, if_neg hlt, if_pos heq]
              exact CanonO.cons _ _ _ hv ho2
            · simp only [insertField, if_neg hlt, if_neg heq]
              exact CanonO.cons _ _ _ hv2 (canonO_insertField hv ho2)

theorem canonO_canonInto : ∀ (o : JObj) {acc : JObj}, CanonO acc → CanonO o →
    CanonO (canonInto acc o)
  | .nil, _, hacc, _ => hacc
  | .cons k v o2, acc, hacc, ho => by
      cases ho with
      | cons _ _ _ hv ho2 => exact canonO_canonInto o2 (canonO_insertField hv hacc) ho2

theorem canonObj_canonO {o : JObj} (ho : CanonO o) : CanonO (canonObj o) :=
  canonO_canonInto o CanonO.nil ho

theorem objAppend_nil : ∀ (o : JObj), objAppend o .nil = o
  | .nil => rfl
  | .cons k v o2 => by simp [objAppend, objAppend_nil o2]

theorem insertField_high {k : List Char} (v : JValue) :
    ∀ {o : JObj}, allKeysLt o k = true → insertField k v o = objAppend o (.cons k v .nil)
  | .nil, _ => rfl
  | .cons k2 v2 o2, h => by
      simp only [allKeysLt, Bool.and_eq_true] at h
      have h1 : strLt k k2 = false := strLt_asymm h.1
      have h2 : k ≠ k2 := fun he => strLt_ne h.1 he.symm
      simp only [insertField, h1, Bool.false_eq_true, if_false, h2, objAppend]
      rw [insertField_high v h.2]

theorem allKeysLt_objAppend {k : List Char} : ∀ {a : JObj} (b : JObj),
    allKeysLt (objAppend a b) k = (allKeysLt a k && allKeysLt b k)
  | .nil, b => by simp [objAppend, allKeysLt]
  | .cons k2 v2 a2, b => by
      simp [objAppend, allKeysLt, allKeysLt_objAppend b, Bool.and_assoc]

theorem belowAll_objAppend {a b : JObj} : ∀ {o : JObj},
    belowAll (objAppend a b) o = (belowAll a o && belowAll b o)
  | .nil => by simp [belowAll]
  | .cons k v o2 => by
      simp only [belowAll, allKeysLt_objAppend, belowAll_objAppend (o := o2)]
      rw [Bool.and_assoc, Bool.and_assoc]
      congr 1
      rw [← Bool.and_assoc, ← Bool.and_assoc]
      congr 1
      rw [Bool.and_comm]

theorem belowAll_single {k : List Char} {v : JValue} : ∀ {o : JObj},
    belowAll (.cons k v .nil) o = keyLtAll k o
  | .nil => rfl
  | .cons k2 v2 o2 => by
      simp [belowAll, allKeysLt, keyLtAll, belowAll_single (o := o2)]

theorem belowAll_nil : ∀ (o : JObj), belowAll .nil o = true
  | .nil => rfl
  | .cons k v o2 => by simp [belowAll, allKeysLt, belowAll_nil o2]

theorem objAppend_cons_mid : ∀ (acc : JObj) (k : List Char) (v : JValue) (o : JObj),
    objAppend (objAppend acc (.cons k v .nil)) o = objAppend acc (.cons k v o)
  | .nil, _, _, _ => rfl
  | .cons k2 v2 a2, k, v, o => by simp [objAppend, objAppend_cons_mid a2 k v o]

theorem canonInto_app : ∀ {o : JObj} (acc : JObj), belowAll acc o = true →
    objSorted o = true → canonInto acc o = objAppend acc o
  | .nil, acc, _, _ => by
      rw [objAppend_nil]
      rfl
  | .cons k v o2, acc, hb, hs => by
      simp only [belowAll, Bool.and_eq_true] at hb
      simp only [objSorted, Bool.and_eq_true] at hs
      show canonInto (insertField k v acc) o2 = _
      rw [insertField_high v hb.1]
      rw [canonInto_app (objAppend acc (.cons k v .nil))
        (by rw [belowAll_objAppend, hb.2, belowAll_single, hs.1]; rfl) hs.2]
      exact objAppend_cons_mid acc k v o2

/-- The sorted-insertion rebuild is the identity on already-sorted objects:
what the printer emits (sorted keys) parses back to the same field list. -/
theorem canonObj_sorted_id {o : JObj} (h : objSorted o = true) : canonObj o = o := by
  unfold canonObj
  rw [canonInto_app .nil (belowAll_nil o) h]
  rfl

/-! ## The parser only produces canonical values -/

mutual

theorem parseVal_canon : ∀ (fuel : Nat) (cs : List Char) (v : JValue) (r : List Char),
    parseVal fuel cs = some (v, r) → CanonV v
  | 0, _, _, _, h => by simp [parseVal] at h
  | fuel + 1, cs, v, r, h => by
      simp only [parseVal] at h
      split at h
      · simp only [Option.some.injEq, Prod.mk.injEq] at h
        rw [← h.1]
        exact CanonV.null
      · simp only [Option.some.injEq, Prod.mk.injEq] at h
        rw [← h.1]
        exact CanonV.bool true
      · simp only [Option.some.injEq, Prod.mk.injEq] at h
        rw [← h.1]
        exact CanonV.bool false
      · split at h
        · simp only [Option.some.injEq, Prod.mk.injEq] at h
          rw [← h.1]
          exact CanonV.str _
        · exact absurd h (by simp)
      · split at h
        · simp only [Option.some.injEq, Prod.mk.injEq] at h
          rw [← h.1]
          exact CanonV.arr _ CanonA.nil
        · split at h
          · simp only [Option.some.injEq, Prod.mk.injEq] at h
            rw [← h.1]
            exact CanonV.arr _ (parseElems_canon _ _ _ _ (by assumption))
          · exact absurd h (by simp)
      · split at h
        · simp only [Option.some.injEq, Prod.mk.injEq] at h
          rw [← h.1]
          exact CanonV.obj _ rfl CanonO.nil
        · split at h
          · simp only [Option.some.injEq, Prod.mk.injEq] at h
            rw [← h.1]
            exact CanonV.obj _ (canonObj_sorted _)
              (canonObj_canonO (parseFields_canon _ _ _ _ (by assumption)))
          · exact absurd h (by simp)
      · split at h
        · simp only [parseNum] at h
          split at h
          · simp only [Option.some.injEq, Prod.mk.injEq] at h
            rw [← h.1]
            exact CanonV.num _ (List.all_takeWhile) (by assumption)
          · exact absurd h (by simp)
        · exact absurd h (by simp)
      · exact absurd h (by simp)

theorem parseElems_canon : ∀ (fuel : Nat) (cs : List Char) (a : JArr) (r : List Char),
    parseElems fuel cs = some (a, r) → CanonA a
  | 0, _, _, _, h => by simp [parseElems] at h
  | fuel + 1, cs, a, r, h => by
      simp only [parseElems] at h
      split at h
      · exact absurd h (by simp)
      · split at h
        · split at h
          · simp only [Option.some.injEq, Prod.mk.injEq] at h
            rw [← h.1]
            exact CanonA.cons _ _ (parseVal_canon _ _ _ _ (by assumption))
              (parseElems_canon _ _ _ _ (by assumption))
          · exact absurd h (by simp)
        · simp only [Option.some.injEq, Prod.mk.injEq] at h
          rw [← h.1]
          exact CanonA.cons _ _ (parseVal_canon _ _ _ _ (by assumption)) CanonA.nil
        · exact absurd h (by simp)

theorem parseFields_canon : ∀ (fuel : Nat) (cs : List Char) (o : JObj) (r : List Char),
    parseFields fuel cs = some (o, r) → CanonO o
  | 0, _, _, _, h => by simp [parseFields] at h
  | fuel + 1, cs, o, r, h => by
      simp only [parseFields] at h
      split at h
      · split at h
        · exact absurd h (by simp)
        · split at h
          · split at h
            · exact absurd h (by simp)
            · split at h
              · split at h
                · simp only [Option.some.injEq, Prod.mk.injEq] at h
                  rw [← h.1]
                  exact CanonO.cons _ _ _ (parseVal_canon _ _ _ _ (by assumption))
                    (parseFields_canon _ _ _ _ (by assumption))
                · exact absurd h (by simp)
              · simp only [Option.some.injEq, Prod.mk.injEq] at h
                rw [← h.1]
                exact CanonO.cons _ _ _ (parseVal_canon _ _ _ _ (by assumption)) CanonO.nil
              · exact absurd h (by simp)
          · exact absurd h (by simp)
      · exact absurd h (by simp)

end

theorem jsonUnmarshal_canon {cs : List Char} {v : JValue}
    (h : jsonUnmarshal cs = some v) : CanonV v := by
  unfold jsonUnmarshal at h
  split at h
  · split at h
    · exact parseVal_canon _ _ _ _ (by
        rename_i v2 r2 heq _
        rw [heq]
        simp only [Option.some.injEq] at h
        rw [h])
    · exact absurd h (by simp)
  · exact absurd h (by simp)

/-! ## Round trip: head shapes and parser dispatch -/

theorem digitChar_facts {c : Char} (h : isDigitChar c = true) :
    isWsChar c = false ∧ c ≠ ']' ∧ c ≠ '}' ∧ c ≠ '"' ∧ c ≠ '[' ∧ c ≠ '{'
      ∧ c ≠ 'n' ∧ c ≠ 't' ∧ c ≠ 'f' := by
  refine ⟨?_, ?_, ?_, ?_, ?_, ?_, ?_, ?_, ?_⟩
  · cases hw : isWsChar c
    · rfl
    · exfalso
      simp only [isWsChar, Bool.or_eq_true, beq_iff_eq] at hw
      rcases hw with ((rfl | rfl) | rfl) | rfl <;> exact absurd h (by decide)
  all_goals intro heq
  all_goals subst heq
  all_goals exact absurd h (by decide)

theorem numHead_facts {c : Char} (hg : (c == '-' || isDigitChar c) = true) :
    isWsChar c = false ∧ c ≠ ']' ∧ c ≠ '}' ∧ c ≠ '"' ∧ c ≠ '[' ∧ c ≠ '{'
      ∧ c ≠ 'n' ∧ c ≠ 't' ∧ c ≠ 'f' := by
  simp only [Bool.or_eq_true, beq_iff_eq] at hg
  rcases hg with rfl | hd
  · exact ⟨by decide, by decide, by decide, by decide, by decide, by decide,
      by decide, by decide, by decide⟩
  · exact digitChar_facts hd

theorem validNum_head {tok : List Char} (h : validNum tok = true) :
    ∃ c t, tok = c :: t ∧ (c == '-' || isDigitChar c) = true := by
  cases tok with
  | nil => exact absurd h (by decide)
  | cons c t =>
      refine ⟨c, t, rfl, ?_⟩
      by_cases hc : c = '-'
      · simp [hc]
      · have hb : numBody (c :: t) = true := by
          have hv : validNum (c :: t) = numBody (c :: t) := by
            rw [validNum.eq_def]
            split
            · rename_i r heq
              injection heq with h1 h2
              exact absurd h1 hc
            · rfl
          rw [← hv]
          exact h
        by_cases h0 : c = '0'
        · subst h0; decide
        · have hd : isDigitChar c = true := by
            rw [numBody.eq_def] at hb
            split at hb
            · exact absurd hb (by simp)
            · rename_i heq
              injection heq with h1 h2
              exact absurd h1 h0
            · rename_i c2 r heq
              injection heq with h1 h2
              rw [h1]
              simp only [Bool.and_eq_true] at hb
              exact hb.1
          simp [hd]

theorem printAt_head : ∀ (d : Nat) (v : JValue), CanonV v →
    ∃ c t, printAt d v = c :: t ∧ isWsChar c = false ∧ c ≠ ']' ∧ c ≠ '}'
  | _, .null, _ => ⟨'n', _, rfl, by decide, by decide, by decide⟩
  | _, .bool true, _ => ⟨'t', _, rfl, by decide, by decide, by decide⟩
  | _, .bool false, _ => ⟨'f', _, rfl, by decide, by decide, by decide⟩
  | _, .str s, _ => ⟨'"', _, rfl, by decide, by decide, by decide⟩
  | _, .arr .nil, _ => ⟨'[', _, rfl, by decide, by decide, by decide⟩
  | _, .arr (.cons v a), _ => ⟨'[', _, rfl, by decide, by decide, by decide⟩
  | _, .obj .nil, _ => ⟨'{', _, rfl, by decide, by decide, by decide⟩
  | _, .obj (.cons k v o), _ => ⟨'{', _, rfl, by decide, by decide, by decide⟩
  | d, .num tok, hc => by
      cases hc with
      | num _ hall hval =>
          obtain ⟨c, t, htok, hg⟩ := validNum_head hval
          obtain ⟨hws, hrb, hcb, _, _, _, _, _, _⟩ := numHead_facts hg
          exact ⟨c, t, by rw [show printAt d (.num tok) = tok from rfl, htok], hws, hrb, hcb⟩

theorem parseVal_ws (f : Nat) {w : List Char} (hw : ∀ c ∈ w, isWsChar c = true)
    (x : List Char) : parseVal f (w ++ x) = parseVal f x := by
  cases f with
  | zero => rfl
  | succ f2 =>
      rw [parseVal.eq_def, parseVal.eq_def, skipWs_ws_lead hw x]

theorem parseVal_num_dispatch (f : Nat) (e : Char) (t : List Char)
    (hg : (e == '-' || isDigitChar e) = true) (hws : isWsChar e = false)
    (h1 : e ≠ '"') (h2 : e ≠ '[') (h3 : e ≠ '{')
    (h4 : e ≠ 'n') (h5 : e ≠ 't') (h6 : e ≠ 'f') :
    parseVal (f + 1) (e :: t) = parseNum (e :: t) := by
  simp only [parseVal]
  rw [skipWs_cons_not hws]
  simp [h1, h2, h3, h4, h5, h6, hg]

theorem parseVal_str_go (f : Nat) (r : List Char) :
    parseVal (f + 1) ('"' :: r) =
      (match parseStrAux (r.length + 1) [] r with
       | some (s, r2) => some (.str s, r2)
       | none => none) := rfl

theorem parseVal_bracket_step (f : Nat) (r : List Char) :
    parseVal (f + 1) ('[' :: r) =
      (match skipWs r with
       | ']' :: r2 => some (.arr .nil, r2)
       | r2 =>
           match parseElems f r2 with
           | some (a, r3) => some (.arr a, r3)
           | none => none) := rfl

theorem parseVal_brace_step (f : Nat) (r : List Char) :
    parseVal (f + 1) ('{' :: r) =
      (match skipWs r with
       | '}' :: r2 => some (.obj .nil, r2)
       | r2 =>
           match parseFields f r2 with
           | some (o, r3) => some (.obj (canonObj o), r3)
           | none => none) := rfl

theorem parseVal_arr_go (f : Nat) (r : List Char) {c : Char} {t : List Char}
    (hsk : skipWs r = c :: t) (hc : c ≠ ']') :
    parseVal (f + 1) ('[' :: r) =
      (match parseElems f (c :: t) with
       | some (a, r3) => some (.arr a, r3)
       | none => none) := by
  rw [parseVal_bracket_step, hsk]
  simp [hc]

theorem parseVal_obj_go (f : Nat) (r : List Char) {c : Char} {t : List Char}
    (hsk : skipWs r = c :: t) (hc : c ≠ '}') :
    parseVal (f + 1) ('{' :: r) =
      (match parseFields f (c :: t) with
       | some (o, r3) => some (.obj (canonObj o), r3)
       | none => none) := by
  rw [parseVal_brace_step, hsk]
  simp [hc]

theorem numDelim_tailA (d : Nat) (a : JArr) (z : List Char) :
    numDelim (printTailA d a ++ '\n' :: z) = true := by
  cases a with
  | nil => rfl
  | cons v a2 => rfl

theorem numDelim_tailO (d : Nat) (o : JObj) (z : List Char) :
    numDelim (printTailO d o ++ '\n' :: z) = true := by
  cases o with
  | nil => rfl
  | cons k v o2 => rfl

theorem parseElems_step (f : Nat) (cs : List Char) :
    parseElems (f + 1) cs =
      (match parseVal f cs with
       | none => none
       | some (v, r) =>
         match skipWs r with
         | ',' :: r2 =>
             (match parseElems f r2 with
              | some (a, r3) => some (.cons v a, r3)
              | none => none)
         | ']' :: r2 => some (.cons v .nil, r2)
         | _ => none) := rfl

theorem parseFields_step (f : Nat) (cs : List Char) :
    parseFields (f + 1) cs =
      (match skipWs cs with
       | '"' :: r =>
         match parseStrAux (r.length + 1) [] r with
         | none => none
         | some (key, r1) =>
           match skipWs r1 with
           | ':' :: r2 =>
             match parseVal f r2 with
             | none => none
             | some (v, r3) =>
               match skipWs r3 with
               | ',' :: r4 =>
                   (match parseFields f r4 with
                    | some (o, r5) => some (.cons key v o, r5)
                    | none => none)
               | '}' :: r4 => some (.cons key v .nil, r4)
               | _ => none
           | _ => none
       | _ => none) := rfl

/-! ## The round trip: parsing printed canonical values -/

mutual

theorem rt_val : ∀ (v : JValue) (f d : Nat) (rest : List Char), CanonV v →
    (printAt d v).length < f → numDelim rest = true →
    parseVal f (printAt d v ++ rest) = some (v, rest)
  | .null, f, _, rest, _, hf, _ => by
      cases f with
      | zero => exact absurd hf (by simp [printAt])
      | succ f2 => rfl
  | .bool true, f, _, rest, _, hf, _ => by
      cases f with
      | zero => exact absurd hf (by simp [printAt])
      | succ f2 => rfl
  | .bool false, f, _, rest, _, hf, _ => by
      cases f with
      | zero => exact absurd hf (by simp [printAt])
      | succ f2 => rfl
  | JValue.num tok, f, d, rest, hc, hf, hr => by
      cases f with
      | zero => exact absurd hf (by omega)
      | succ f2 =>
          cases hc with
          | num _ hall hval =>
              obtain ⟨c0, t0, htok, hg⟩ := validNum_head hval
              obtain ⟨hws, _, _, hq, hbk, hbc, hn, ht, hfc⟩ := numHead_facts hg
              have harg : printAt d (.num tok) ++ rest = c0 :: (t0 ++ rest) := by
                rw [show printAt d (.num tok) = tok from rfl, htok, List.cons_append]
              rw [harg, parseVal_num_dispatch f2 c0 (t0 ++ rest) hg hws hq hbk hbc hn ht hfc,
                show c0 :: (t0 ++ rest) = (c0 :: t0) ++ rest from rfl, ← htok]
              exact parseNum_token rest hall hval hr
  | .str s, f, d, rest, _, hf, _ => by
      cases f with
      | zero => exact absurd hf (by omega)
      | succ f2 =>
          have harg : printAt d (.str s) ++ rest = '"' :: (escapeStr s ++ '"' :: rest) := by
            show quoteStr s ++ rest = _
            simp [quoteStr]
          rw [harg, parseVal_str_go, parse_quoteStr]
  | .arr .nil, f, _, rest, _, hf, _ => by
      cases f with
      | zero => exact absurd hf (by simp [printAt])
      | succ f2 => rfl
  | .arr (.cons v a), f, d, rest, hc, hf, hr => by
      cases f with
      | zero => exact absurd hf (by omega)
      | succ f2 =>
          cases hc with
          | arr _ hca2 =>
              cases hca2 with
              | cons _ _ hcv hca =>
                  obtain ⟨c0, t0, hhead, hws0, hrb0, _⟩ := printAt_head (d + 1) v hcv
                  have harg : printAt d (.arr (.cons v a)) ++ rest =
                      '[' :: ('\n' :: (indentAt (d + 1) ++ (printAt (d + 1) v ++
                        (printTailA (d + 1) a ++ '\n' :: (indentAt d ++ ']' :: rest))))) := by
                    show '[' :: '\n' :: (indentAt (d + 1) ++ (printAt (d + 1) v ++
                      (printTailA (d + 1) a ++ '\n' :: (indentAt d ++ [']'])))) ++ rest = _
                    simp [List.append_assoc]
                  have hsk : skipWs ('\n' :: (indentAt (d + 1) ++ (printAt (d + 1) v ++
                      (printTailA (d + 1) a ++ '\n' :: (indentAt d ++ ']' :: rest))))) =
                      c0 :: (t0 ++ (printTailA (d + 1) a ++ '\n' :: (indentAt d ++ ']' :: rest))) := by
                    rw [skipWs_nl_indent, hhead, List.cons_append]
                    exact skipWs_cons_not hws0
                  rw [harg, parseVal_arr_go f2 _ hsk hrb0]
                  have hlen : (printAt (d + 1) v).length + (printTailA (d + 1) a).length + 1 < f2 := by
                    have : (printAt d (.arr (.cons v a))).length =
                        (printAt (d + 1) v).length + (printTailA (d + 1) a).length +
                          (2 * (d + 1)) + (2 * d) + 4 := by
                      show ('[' :: '\n' :: (indentAt (d + 1) ++ (printAt (d + 1) v ++
                        (printTailA (d + 1) a ++ '\n' :: (indentAt d ++ [']']))))).length = _
                      simp only [List.length_cons, List.length_append, indentAt,
                        List.length_replicate, List.length_nil]
                      omega
                    omega
                  have hrec := rt_elems v a f2 (d + 1) d rest [] hcv hca
                    (by intro c hc2; exact absurd hc2 (List.not_mem_nil c)) hlen hr
                  rw [List.nil_append] at hrec
                  rw [show c0 :: (t0 ++ (printTailA (d + 1) a ++ '\n' :: (indentAt d ++ ']' :: rest))) =
                    (c0 :: t0) ++ (printTailA (d + 1) a ++ '\n' :: (indentAt d ++ ']' :: rest)) from rfl,
                    ← hhead, hrec]
  | .obj .nil, f, _, rest, _, hf, _ => by
      cases f with
      | zero => exact absurd hf (by simp [printAt])
      | succ f2 => rfl
  | .obj (.cons k v o), f, d, rest, hc, hf, hr => by
      cases f with
      | zero => exact absurd hf (by omega)
      | succ f2 =>
          cases hc with
          | obj _ hsorted hco2 =>
              cases hco2 with
              | cons _ _ _ hcv hco =>
                  have harg : printAt d (.obj (.cons k v o)) ++ rest =
                      '{' :: ('\n' :: (indentAt (d + 1) ++ (quoteStr k ++ ':' :: ' ' ::
                        (printAt (d + 1) v ++ (printTailO (d + 1) o ++ '\n' ::
                          (indentAt d ++ '}' :: rest)))))) := by
                    show '{' :: '\n' :: (indentAt (d + 1) ++ (quoteStr k ++ ':' :: ' ' ::
                      (printAt (d + 1) v ++ (printTailO (d + 1) o ++ '\n' ::
                        (indentAt d ++ ['}']))))) ++ rest = _
                    simp [List.append_assoc, quoteStr]
                  have hsk : skipWs ('\n' :: (indentAt (d + 1) ++ (quoteStr k ++ ':' :: ' ' ::
                      (printAt (d + 1) v ++ (printTailO (d + 1) o ++ '\n' ::
                        (indentAt d ++ '}' :: rest)))))) =
                      '"' :: ((escapeStr k ++ ['"']) ++ (':' :: ' ' ::
                        (printAt (d + 1) v ++ (printTailO (d + 1) o ++ '\n' ::
                          (indentAt d ++ '}' :: rest))))) := by
                    rw [skipWs_nl_indent]
                    rw [show quoteStr k ++ ':' :: ' ' :: (printAt (d + 1) v ++ (printTailO (d + 1) o ++
                      '\n' :: (indentAt d ++ '}' :: rest))) =
                      '"' :: ((escapeStr k ++ ['"']) ++ (':' :: ' ' :: (printAt (d + 1) v ++
                        (printTailO (d + 1) o ++ '\n' :: (indentAt d ++ '}' :: rest))))) from by
                      simp [quoteStr]]
                    exact skipWs_cons_not (by decide)
                  rw [harg, parseVal_obj_go f2 _ hsk (by decide)]
                  have hlen : (quoteStr k).length + (printAt (d + 1) v).length +
                      (printTailO (d + 1) o).length + 1 < f2 := by
                    have : (printAt d (.obj (.cons k v o))).length =
                        (quoteStr k).length + (printAt (d + 1) v).length +
                          (printTailO (d + 1) o).length + (2 * (d + 1)) + (2 * d) + 6 := by
                      show ('{' :: '\n' :: (indentAt (d + 1) ++ (quoteStr k ++ ':' :: ' ' ::
                        (printAt (d + 1) v ++ (printTailO (d + 1) o ++ '\n' ::
                          (indentAt d ++ ['}'])))))).length = _
                      simp only [List.length_cons, List.length_append, indentAt,
                        List.length_replicate, List.length_nil]
                      omega
                    omega
                  have hrec := rt_fields k v o f2 (d + 1) d rest [] hcv hco
                    (by intro c hc2; exact absurd hc2 (List.not_mem_nil c)) hlen hr
                  rw [List.nil_append] at hrec
                  have hin : '"' :: ((escapeStr k ++ ['"']) ++ (':' :: ' ' ::
                      (printAt (d + 1) v ++ (printTailO (d + 1) o ++ '\n' ::
                        (indentAt d ++ '}' :: rest))))) =
                      quoteStr k ++ ':' :: ' ' :: (printAt (d + 1) v ++ (printTailO (d + 1) o ++
                        '\n' :: (indentAt d ++ '}' :: rest))) := by
                    simp [quoteStr]
                  rw [hin]
                  simp only [hrec]
                  rw [canonObj_sorted_id hsorted]
termination_by v _ _ _ _ _ _ => sizeOf v
decreasing_by all_goals (simp_wf <;> omega)

theorem rt_elems : ∀ (v : JValue) (a : JArr) (f d dc : Nat) (rest w : List Char),
    CanonV v → CanonA a → (∀ c ∈ w, isWsChar c = true) →
    (printAt d v).length + (printTailA d a).length + 1 < f → numDelim rest = true →
    parseElems f (w ++ (printAt d v ++ (printTailA d a ++ '\n' ::
      (indentAt dc ++ ']' :: rest)))) = some (.cons v a, rest)
  | v, .nil, f, d, dc, rest, w, hcv, _, hw, hf, hr => by
      cases f with
      | zero => exact absurd hf (by omega)
      | succ f2 =>
          have hpv : parseVal f2 (w ++ (printAt d v ++ (printTailA d .nil ++ '\n' ::
              (indentAt dc ++ ']' :: rest)))) =
              some (v, printTailA d .nil ++ '\n' :: (indentAt dc ++ ']' :: rest)) := by
            rw [parseVal_ws f2 hw]
            exact rt_val v f2 d _ hcv (by omega) (numDelim_tailA d .nil _)
          rw [parseElems_step, hpv]
          have hsk : skipWs (printTailA d .nil ++ '\n' :: (indentAt dc ++ ']' :: rest)) =
              ']' :: rest := by
            show skipWs ('\n' :: (indentAt dc ++ ']' :: rest)) = _
            rw [skipWs_nl_indent]
            exact skipWs_cons_not (by decide)
          simp only [hsk]
  | v, .cons v2 a2, f, d, dc, rest, w, hcv, hca, hw, hf, hr => by
      cases f with
      | zero => exact absurd hf (by omega)
      | succ f2 =>
          have hpv : parseVal f2 (w ++ (printAt d v ++ (printTailA d (.cons v2 a2) ++ '\n' ::
              (indentAt dc ++ ']' :: rest)))) =
              some (v, printTailA d (.cons v2 a2) ++ '\n' :: (indentAt dc ++ ']' :: rest)) := by
            rw [parseVal_ws f2 hw]
            exact rt_val v f2 d _ hcv (by omega) (numDelim_tailA d (.cons v2 a2) _)
          rw [parseElems_step, hpv]
          cases hca with
          | cons _ _ hcv2 hca2 =>
              have hT : printTailA d (.cons v2 a2) ++ '\n' :: (indentAt dc ++ ']' :: rest) =
                  ',' :: (('\n' :: indentAt d) ++ (printAt d v2 ++ (printTailA d a2 ++
                    '\n' :: (indentAt dc ++ ']' :: rest)))) := by
                show ',' :: '\n' :: (indentAt d ++ (printAt d v2 ++ printTailA d a2)) ++
                  '\n' :: (indentAt dc ++ ']' :: rest) = _
                simp [List.append_assoc]
              have hws2 : ∀ c ∈ ('\n' :: indentAt d), isWsChar c = true := by
                intro c hc2
                rcases List.mem_cons.mp hc2 with rfl | hmem
                · decide
                · exact indentAt_ws d c hmem
              have hlen2 : (printAt d v2).length + (printTailA d a2).length + 1 < f2 := by
                have : (printTailA d (.cons v2 a2)).length =
                    (printAt d v2).length + (printTailA d a2).length + 2 * d + 2 := by
                  show (',' :: '\n' :: (indentAt d ++ (printAt d v2 ++ printTailA d a2))).length = _
                  simp only [List.length_cons, List.length_append, indentAt,
                    List.length_replicate, List.length_nil]
                  omega
                omega
              have hrec := rt_elems v2 a2 f2 d dc rest ('\n' :: indentAt d) hcv2 hca2
                hws2 hlen2 hr
              rw [hT]
              have hsk : skipWs (',' :: (('\n' :: indentAt d) ++ (printAt d v2 ++
                  (printTailA d a2 ++ '\n' :: (indentAt dc ++ ']' :: rest))))) =
                  ',' :: (('\n' :: indentAt d) ++ (printAt d v2 ++ (printTailA d a2 ++
                    '\n' :: (indentAt dc ++ ']' :: rest)))) :=
                skipWs_cons_not (by decide)
              simp only [hsk, hrec]
termination_by v a _ _ _ _ _ _ _ _ _ _ => 1 + sizeOf v + sizeOf a
decreasing_by all_goals (simp_wf <;> omega)

theorem rt_fields : ∀ (k : List Char) (v : JValue) (o : JObj) (f d dc : Nat)
    (rest w : List Char),
    CanonV v → CanonO o → (∀ c ∈ w, isWsChar c = true) →
    (quoteStr k).length + (printAt d v).length + (printTailO d o).length + 1 < f →
    numDelim rest = true →
    parseFields f (w ++ (quoteStr k ++ ':' :: ' ' :: (printAt d v ++ (printTailO d o ++
      '\n' :: (indentAt dc ++ '}' :: rest))))) = some (.cons k v o, rest)
  | k, v, .nil, f, d, dc, rest, w, hcv, _, hw, hf, hr => by
      cases f with
      | zero => exact absurd hf (by omega)
      | succ f2 =>
          rw [parseFields_step]
          have hsk1 : skipWs (w ++ (quoteStr k ++ ':' :: ' ' :: (printAt d v ++
              (printTailO d .nil ++ '\n' :: (indentAt dc ++ '}' :: rest))))) =
              '"' :: (escapeStr k ++ '"' :: (':' :: ' ' :: (printAt d v ++
                (printTailO d .nil ++ '\n' :: (indentAt dc ++ '}' :: rest))))) := by
            rw [skipWs_ws_lead hw]
            rw [show quoteStr k ++ ':' :: ' ' :: (printAt d v ++ (printTailO d .nil ++ '\n' ::
              (indentAt dc ++ '}' :: rest))) =
              '"' :: (escapeStr k ++ '"' :: (':' :: ' ' :: (printAt d v ++ (printTailO d .nil ++
                '\n' :: (indentAt dc ++ '}' :: rest))))) from by simp [quoteStr]]
            exact skipWs_cons_not (by decide)
          rw [hsk1]
          have hkey := parse_quoteStr k (':' :: ' ' :: (printAt d v ++ (printTailO d .nil ++
            '\n' :: (indentAt dc ++ '}' :: rest))))
          have hpv : parseVal f2 (' ' :: (printAt d v ++ (printTailO d .nil ++ '\n' ::
              (indentAt dc ++ '}' :: rest)))) =
              some (v, printTailO d .nil ++ '\n' :: (indentAt dc ++ '}' :: rest)) := by
            rw [show (' ' :: (printAt d v ++ (printTailO d .nil ++ '\n' :: (indentAt dc ++
              '}' :: rest)))) = [' '] ++ (printAt d v ++ (printTailO d .nil ++ '\n' ::
                (indentAt dc ++ '}' :: rest))) from rfl]
            rw [parseVal_ws f2 (by intro c hc2; rcases List.mem_singleton.mp hc2 with rfl; decide)]
            exact rt_val v f2 d _ hcv (by omega) (numDelim_tailO d .nil _)
          have hskc : skipWs (':' :: ' ' :: (printAt d v ++ (printTailO d .nil ++ '\n' ::
              (indentAt dc ++ '}' :: rest)))) =
              ':' :: ' ' :: (printAt d v ++ (printTailO d .nil ++ '\n' ::
                (indentAt dc ++ '}' :: rest))) :=
            skipWs_cons_not (by decide)
          have hsk3 : skipWs (printTailO d .nil ++ '\n' :: (indentAt dc ++ '}' :: rest)) =
              '}' :: rest := by
            show skipWs ('\n' :: (indentAt dc ++ '}' :: rest)) = _
            rw [skipWs_nl_indent]
            exact skipWs_cons_not (by decide)
          simp only [hkey, hskc, hpv, hsk3]
  | k, v, .cons k2 v2 o2, f, d, dc, rest, w, hcv, hco, hw, hf, hr => by
      cases f with
      | zero => exact absurd hf (by omega)
      | succ f2 =>
          rw [parseFields_step]
          have hsk1 : skipWs (w ++ (quoteStr k ++ ':' :: ' ' :: (printAt d v ++
              (printTailO d (.cons k2 v2 o2) ++ '\n' :: (indentAt dc ++ '}' :: rest))))) =
              '"' :: (escapeStr k ++ '"' :: (':' :: ' ' :: (printAt d v ++
                (printTailO d (.cons k2 v2 o2) ++ '\n' :: (indentAt dc ++ '}' :: rest))))) := by
            rw [skipWs_ws_lead hw]
            rw [show quoteStr k ++ ':' :: ' ' :: (printAt d v ++ (printTailO d (.cons k2 v2 o2) ++ '\n' ::
              (indentAt dc ++ '}' :: rest))) =
              '"' :: (escapeStr k ++ '"' :: (':' :: ' ' :: (printAt d v ++ (printTailO d (.cons k2 v2 o2) ++
                '\n' :: (indentAt dc ++ '}' :: rest))))) from by simp [quoteStr]]
            exact skipWs_cons_not (by decide)
          rw [hsk1]
          have hkey := parse_quoteStr k (':' :: ' ' :: (printAt d v ++ (printTailO d (.cons k2 v2 o2) ++
            '\n' :: (indentAt dc ++ '}' :: rest))))
          have hpv : parseVal f2 (' ' :: (printAt d v ++ (printTailO d (.cons k2 v2 o2) ++ '\n' ::
              (indentAt dc ++ '}' :: rest)))) =
              some (v, printTailO d (.cons k2 v2 o2) ++ '\n' :: (indentAt dc ++ '}' :: rest)) := by
            rw [show (' ' :: (printAt d v ++ (printTailO d (.cons k2 v2 o2) ++ '\n' :: (indentAt dc ++
              '}' :: rest)))) = [' '] ++ (printAt d v ++ (printTailO d (.cons k2 v2 o2) ++ '\n' ::
                (indentAt dc ++ '}' :: rest))) from rfl]
            rw [parseVal_ws f2 (by intro c hc2; rcases List.mem_singleton.mp hc2 with rfl; decide)]
            exact rt_val v f2 d _ hcv (by omega) (numDelim_tailO d (.cons k2 v2 o2) _)
          have hskc : skipWs (':' :: ' ' :: (printAt d v ++ (printTailO d (.cons k2 v2 o2) ++ '\n' ::
              (indentAt dc ++ '}' :: rest)))) =
              ':' :: ' ' :: (printAt d v ++ (printTailO d (.cons k2 v2 o2) ++ '\n' ::
                (indentAt dc ++ '}' :: rest))) :=
            skipWs_cons_not (by decide)
          cases hco with
          | cons _ _ _ hcv2 hco2 =>
              have hT : printTailO d (.cons k2 v2 o2) ++ '\n' :: (indentAt dc ++ '}' :: rest) =
                  ',' :: (('\n' :: indentAt d) ++ (quoteStr k2 ++ ':' :: ' ' ::
                    (printAt d v2 ++ (printTailO d o2 ++ '\n' ::
                      (indentAt dc ++ '}' :: rest))))) := by
                show ',' :: '\n' :: (indentAt d ++ (quoteStr k2 ++ ':' :: ' ' ::
                  (printAt d v2 ++ printTailO d o2))) ++ '\n' :: (indentAt dc ++ '}' :: rest) = _
                simp [List.append_assoc]
              have hws2 : ∀ c ∈ ('\n' :: indentAt d), isWsChar c = true := by
                intro c hc2
                rcases List.mem_cons.mp hc2 with rfl | hmem
                · decide
                · exact indentAt_ws d c hmem
              have hlen2 : (quoteStr k2).length + (printAt d v2).length +
                  (printTailO d o2).length + 1 < f2 := by
                have : (printTailO d (.cons k2 v2 o2)).length =
                    (quoteStr k2).length + (printAt d v2).length +
                      (printTailO d o2).length + 2 * d + 4 := by
                  show (',' :: '\n' :: (indentAt d ++ (quoteStr k2 ++ ':' :: ' ' ::
                    (printAt d v2 ++ printTailO d o2)))).length = _
                  simp only [List.length_cons, List.length_append, indentAt,
                    List.length_replicate, List.length_nil]
                  omega
                omega
              have hrec := rt_fields k2 v2 o2 f2 d dc rest ('\n' :: indentAt d) hcv2 hco2
                hws2 hlen2 hr
              have hsk4 : skipWs (',' :: (('\n' :: indentAt d) ++ (quoteStr k2 ++ ':' :: ' ' ::
                  (printAt d v2 ++ (printTailO d o2 ++ '\n' ::
                    (indentAt dc ++ '}' :: rest)))))) =
                  ',' :: (('\n' :: indentAt d) ++ (quoteStr k2 ++ ':' :: ' ' ::
                    (printAt d v2 ++ (printTailO d o2 ++ '\n' ::
                      (indentAt dc ++ '}' :: rest))))) :=
                skipWs_cons_not (by decide)
              simp only [hkey]
              simp only [hskc]
              simp only [hpv]
              rw [hT]
              simp only [hsk4, hrec]
termination_by k v o _ _ _ _ _ _ _ _ _ _ => 1 + sizeOf v + sizeOf o
decreasing_by all_goals (simp_wf; omega)

/-- Printing a canonical value and parsing it back recovers the value:
the composition behind format-idempotence. -/
theorem jsonUnmarshal_print {v : JValue} (hc : CanonV v) :
    jsonUnmarshal (printAt 0 v) = some v := by
  have hp : parseVal ((printAt 0 v).length + 1) (printAt 0 v ++ []) = some (v, []) :=
    rt_val v ((printAt 0 v).length + 1) 0 [] hc (by omega) rfl
  rw [List.append_nil] at hp
  unfold jsonUnmarshal
  rw [hp]
  rfl

/-- C9: the pretty-print transform is idempotent: if jsonFormat b = some c
then jsonFormat c = some c, i.e. format (format b) = format b whenever b
parses as JSON. -/
theorem claim_C9_format_idempotent (b c : List Char) (h : jsonFormat b = some c) :
    jsonFormat c = some c := by
  unfold jsonFormat at h
  cases hu : jsonUnmarshal b with
  | none => rw [hu] at h; exact absurd h (by simp)
  | some v =>
      rw [hu] at h
      have hcv : CanonV v := jsonUnmarshal_canon hu
      have hcval : c = printAt 0 v := by
        simpa [jsonMarshalIndent] using h.symm
      subst hcval
      unfold jsonFormat
      rw [jsonUnmarshal_print hcv]
      rfl

/-- Witness for C9 at a concrete document: formatting the minimal JWKS
body is idempotent. -/
theorem claim_C9_witness :
    jsonFormat ("\x7b\n  \"keys\": []\n\x7d".data) =
      some ("\x7b\n  \"keys\": []\n\x7d".data) :=
  claim_C9_format_idempotent ("\x7b\"keys\":[]\x7d".data)
    ("\x7b\n  \"keys\": []\n\x7d".data) (by decide)

end

end Gateway
